import Mathlib

/-!
SaveExtension: the save manager (`Source/SaveExtension/Private/SaveManager.cpp`).

A shallow embedding of `USaveManager`: the task queue (`Tasks`), the blob-store
entry points (`IsSlotSaved`, `DeleteSlot`), the subscriber list
(`SubscribedInterfaces`) and the polling of the background enumeration jobs
(`LoadInfosTasks`).

Conventions of the embedding.

* A `USlotDataTask*` is the index of the task object in `USaveManager.Objects`,
  the list of all task objects ever created by `NewObject`; indices are handed
  out in creation order, so a smaller index is an earlier admission.
* Engine state that the manager only reads (game mode, world, preset, files on
  disk) is gathered in `FEngine` and passed explicitly.
* Calls whose only effect is outside the manager (logging with `SELog`, the
  `CurrentInfo` / `CurrentData` objects replaced by `TryInstantiateInfo`, the
  pointers stored by `USlotDataTask::Prepare`) are left out.
* `StartCalls`, `OnStartCalls` and `DelegateCalls` are ghost logs: they record
  calls the C++ code makes and are read by no operation.
-/

namespace SaveExtension

/-! ## Unreal Engine `TArray` operations used by the manager -/

/-- The engine's `TArray::Add`: the item is placed after the last element. -/
def TArray.Add {α : Type} (A : List α) (Item : α) : List α :=
  A ++ [Item]

/-- The engine's `TArray::AddUnique`: the item is added at the end unless an
equal element is already stored. -/
def TArray.AddUnique {α : Type} [DecidableEq α] (A : List α) (Item : α) : List α :=
  if Item ∈ A then A else TArray.Add A Item

/-- The engine's `TArray::Remove`: every element equal to the item is removed,
the order of the others is kept. -/
def TArray.Remove {α : Type} [DecidableEq α] (A : List α) (Item : α) : List α :=
  A.filter (fun X => X ≠ Item)

/-- The engine's `TArray::RemoveAtSwap(Index, 1)`: the element at `Index` is
removed and, when elements follow it, the last element of the array is moved
into the hole. -/
def TArray.RemoveAtSwap {α : Type} (A : List α) (Index : Nat) : List α :=
  A.take Index ++
    (match (A.drop (Index + 1)).getLast? with
     | none => []
     | some Last => Last :: (A.drop (Index + 1)).dropLast)

/-- The loop of `TArray::RemoveAllSwap`:
`for (ItemIndex = 0; ItemIndex < Num();) if (Predicate(A[ItemIndex])) RemoveAtSwap(ItemIndex) else ++ItemIndex;`
The predicate may have side effects, threaded through `S`. Each iteration
consumes one unit of `Fuel`. -/
def TArray.RemoveAllSwapLoop {α σ : Type} (Predicate : α → σ → Bool × σ) :
    Nat → Nat → List α → σ → List α × σ
  | 0, _, A, S => (A, S)
  | Fuel + 1, ItemIndex, A, S =>
    match A.get? ItemIndex with
    | none => (A, S)
    | some Item =>
      let R := Predicate Item S
      if R.1 then TArray.RemoveAllSwapLoop Predicate Fuel ItemIndex (TArray.RemoveAtSwap A ItemIndex) R.2
      else TArray.RemoveAllSwapLoop Predicate Fuel (ItemIndex + 1) A R.2

/-- The engine's `TArray::RemoveAllSwap`. Every iteration of the loop either
advances `ItemIndex` or shortens the array, so `Num()` iterations suffice. -/
def TArray.RemoveAllSwap {α σ : Type} (Predicate : α → σ → Bool × σ) (A : List α) (S : σ) :
    List α × σ :=
  TArray.RemoveAllSwapLoop Predicate A.length 0 A S

/-! ## Slot naming, blob store, engine context -/

/-- Modelled from the spec: the slot naming functions `GenerateSlotInfoName` and
`GenerateSlotDataName` are declared in SaveManager.h, which is not among the
sources. The spec gives every slot id two logical blob names, a metadata blob
and a data blob, each a unique key of the id with no collisions; a name is
therefore the id tagged with the kind of blob. -/
inductive FBlobName where
  | Info (SlotId : Int)
  | Data (SlotId : Int)
  deriving DecidableEq, Repr

/-- Modelled from the spec: `USaveManager::GenerateSlotInfoName` (SaveManager.h,
not among the sources): the name of the metadata blob of a slot. -/
def GenerateSlotInfoName (SlotId : Int) : FBlobName := FBlobName.Info SlotId

/-- Modelled from the spec: `USaveManager::GenerateSlotDataName` (SaveManager.h,
not among the sources): the name of the data blob of a slot. -/
def GenerateSlotDataName (SlotId : Int) : FBlobName := FBlobName.Data SlotId

/-- Engine context read by the manager: the game mode (`none` when there is
none, otherwise the value of `HasAuthority()`), whether `GetWorld()` is a valid
world, the preset's `MaxSlots`, and the blobs present in the blob store. -/
structure FEngine where
  GameMode : Option Bool
  bWorldValid : Bool
  MaxSlots : Int
  Files : List FBlobName
  deriving DecidableEq, Repr

/-- Modelled from the spec: `FFileAdapter::DoesFileExist` (FileAdapter.cpp is
not among the sources); the blob store's `exists(name) -> bool`. -/
def FFileAdapter.DoesFileExist (E : FEngine) (Name : FBlobName) : Bool :=
  decide (Name ∈ E.Files)

/-- Modelled from the spec: `FFileAdapter::DeleteFile` (FileAdapter.cpp is not
among the sources); the blob store's `delete(name) -> ok | NotFound`: it
succeeds exactly when the named blob exists, and then the blob is gone. -/
def FFileAdapter.DeleteFile (E : FEngine) (Name : FBlobName) : Bool × FEngine :=
  if FFileAdapter.DoesFileExist E Name then
    (true, { E with Files := E.Files.filter (fun X => X ≠ Name) })
  else (false, E)

/-- Modelled from the spec: `USaveManager::IsValidSlot` is declared in
SaveManager.h, which is not among the sources. The spec: a slot identifier is
valid iff `0 <= id < MaxSlots`. -/
def IsValidSlot (E : FEngine) (SlotId : Int) : Bool :=
  decide (0 ≤ SlotId ∧ SlotId < E.MaxSlots)

/-- `USaveManager::IsSlotSaved` (SaveManager.cpp 166-175). -/
def IsSlotSaved (E : FEngine) (SlotId : Int) : Bool :=
  if !IsValidSlot E SlotId then false
  else
    let InfoSlot := GenerateSlotInfoName SlotId
    let DataSlot := GenerateSlotDataName SlotId
    FFileAdapter.DoesFileExist E InfoSlot && FFileAdapter.DoesFileExist E DataSlot

/-- `USaveManager::DeleteSlot` (SaveManager.cpp 101-110). The C++ `||` evaluates
its right operand only when the left one is false, so the second `DeleteFile`
runs only when the first one failed. -/
def DeleteSlot (E : FEngine) (SlotId : Int) : Bool × FEngine :=
  if !IsValidSlot E SlotId then (false, E)
  else
    let InfoSlot := GenerateSlotInfoName SlotId
    let DataSlot := GenerateSlotDataName SlotId
    let R1 := FFileAdapter.DeleteFile E InfoSlot
    if R1.1 then (true, R1.2)
    else FFileAdapter.DeleteFile R1.2 DataSlot

/-- `USaveManager::CanLoadOrSave` (SaveManager.cpp 177-187). -/
def CanLoadOrSave (E : FEngine) : Bool :=
  match E.GameMode with
  | none => false
  | some bHasAuthority =>
    if !bHasAuthority then false
    else if !E.bWorldValid then false
    else true

/-! ## Tasks -/

/-- The four task classes the manager creates. -/
inductive ETaskType where
  | Saver
  | Loader
  | LevelSaver
  | LevelLoader
  deriving DecidableEq, Repr

/-- Modelled from the spec: the states of an async task (the class
`USlotDataTask` is not among the sources):
`NotStarted → Scheduled → Running → {Succeeded | Failed}`. -/
inductive ETaskState where
  | NotStarted
  | Scheduled
  | Running
  | Succeeded
  | Failed
  deriving DecidableEq, Repr

/-- Modelled from the spec: a task object (the class `USlotDataTask` and its
subclasses are not among the sources): its kind, the parameters stored by
`Setup`, the callback stored by `Bind`, and its state. -/
structure USlotDataTask where
  TaskType : ETaskType
  Slot : Int
  bOverride : Bool
  bSaveThumbnail : Bool
  Width : Int
  Height : Int
  Level : Option Nat
  Delegate : Option Nat
  State : ETaskState
  deriving DecidableEq, Repr

/-- A task object as `NewObject` leaves it. -/
def NewObject (TaskType : ETaskType) : USlotDataTask :=
  { TaskType := TaskType, Slot := 0, bOverride := false, bSaveThumbnail := false,
    Width := 0, Height := 0, Level := none, Delegate := none,
    State := ETaskState.NotStarted }

/-- A background enumeration job, `FAsyncTask<FLoadAllSlotInfosTask>`, as
created by `new` in `LoadAllSlotInfos`: its identity (jobs are numbered in the
order of their allocation), and the two constructor arguments, the sort flag
and the completion delegate. -/
structure FLoadAllSlotInfosTask where
  Address : Nat
  bSortByRecent : Bool
  Delegate : Nat
  deriving DecidableEq, Repr

/-- Screenshot size passed to `SaveSlot`. -/
structure FScreenshotSize where
  Width : Int
  Height : Int
  deriving DecidableEq, Repr

/-! ## The manager -/

/-- State of `USaveManager`: the task objects it created, the queue `Tasks`,
the pending enumeration jobs, the subscribers, and the ghost logs. -/
structure USaveManager where
  Objects : List USlotDataTask
  Tasks : List Nat
  LoadInfosTasks : List FLoadAllSlotInfosTask
  NumAsyncTasks : Nat
  SubscribedInterfaces : List Nat
  StartCalls : List Nat
  OnStartCalls : List Nat
  DelegateCalls : List FLoadAllSlotInfosTask
  deriving DecidableEq, Repr

/-- The manager as constructed: nothing queued, nobody subscribed. -/
def USaveManager.New : USaveManager :=
  { Objects := [], Tasks := [], LoadInfosTasks := [], NumAsyncTasks := 0,
    SubscribedInterfaces := [], StartCalls := [], OnStartCalls := [], DelegateCalls := [] }

/-- Dereference of a task pointer. -/
def USaveManager.Object (M : USaveManager) (Task : Nat) : USlotDataTask :=
  M.Objects.getD Task (NewObject ETaskType.Saver)

/-- Write through a task pointer. -/
def USaveManager.SetObject (M : USaveManager) (Task : Nat) (O : USlotDataTask) : USaveManager :=
  { M with Objects := M.Objects.set Task O }

/-- Write of the state of a task. -/
def USaveManager.SetState (M : USaveManager) (Task : Nat) (S : ETaskState) : USaveManager :=
  M.SetObject Task { M.Object Task with State := S }

/-- Modelled from the spec: `USlotDataTask::IsRunning` (not among the sources). -/
def USlotDataTask.IsRunning (M : USaveManager) (Task : Nat) : Bool :=
  decide ((M.Object Task).State = ETaskState.Running)

/-- Modelled from the spec: `USlotDataTask::IsSucceeded` (not among the sources). -/
def USlotDataTask.IsSucceeded (M : USaveManager) (Task : Nat) : Bool :=
  decide ((M.Object Task).State = ETaskState.Succeeded)

/-- Modelled from the spec: `USlotDataTask::IsScheduled` (not among the
sources): the task reached at least the Scheduled state and is not terminal. -/
def USlotDataTask.IsScheduled (M : USaveManager) (Task : Nat) : Bool :=
  decide ((M.Object Task).State = ETaskState.Scheduled ∨
          (M.Object Task).State = ETaskState.Running)

/-- Modelled from the spec: `USlotDataTask::Start` (SlotDataTask.cpp is not
among the sources). The spec: `Start()` transitions `NotStarted → Scheduled`
and returns immediately; a task admitted to an empty queue starts immediately,
"otherwise it waits"; "on completion of the head task, it is removed and the
new head (if any) is started"; a task "must never be started twice"; the
running task "is always the sequence's head". The manager calls `Start()` on
every admission and on every new head, and its `Tick` advances the head only
when `IsRunning()`, so `Start()` schedules the task and makes it Running when
it is the head of the queue; on a task already Running or terminal it does
nothing. The call is recorded in `StartCalls`, the transition to Running (the
subclass hook `OnStart`) in `OnStartCalls`. -/
def USlotDataTask.Start (M : USaveManager) (Task : Nat) : USaveManager :=
  let M1 := { M with StartCalls := M.StartCalls ++ [Task] }
  if (M.Object Task).State = ETaskState.NotStarted ∨
     (M.Object Task).State = ETaskState.Scheduled then
    if M.Tasks.head? = some Task then
      { M1.SetState Task ETaskState.Running with OnStartCalls := M.OnStartCalls ++ [Task] }
    else M1.SetState Task ETaskState.Scheduled
  else M1

/-- Modelled from the spec: `USlotDataTask_Saver::Setup` (not among the
sources): stores the operation's parameters in the task. -/
def USlotDataTask_Saver.Setup (M : USaveManager) (Task : Nat) (SlotId : Int)
    (bOverrideIfNeeded bScreenshot : Bool) (Width Height : Int) : USaveManager :=
  M.SetObject Task { M.Object Task with
    Slot := SlotId, bOverride := bOverrideIfNeeded, bSaveThumbnail := bScreenshot,
    Width := Width, Height := Height }

/-- Modelled from the spec: `USlotDataTask_Loader::Setup` (not among the
sources): stores the target slot id. -/
def USlotDataTask_Loader.Setup (M : USaveManager) (Task : Nat) (SlotId : Int) : USaveManager :=
  M.SetObject Task { M.Object Task with Slot := SlotId }

/-- Modelled from the spec: `Setup` of the two region tasks (not among the
sources): stores the target region handle. -/
def USlotDataTask_Level.Setup (M : USaveManager) (Task : Nat) (LevelStreaming : Nat) : USaveManager :=
  M.SetObject Task { M.Object Task with Level := some LevelStreaming }

/-- Modelled from the spec: `Bind` (not among the sources): attaches a single
completion callback, the last one bound wins. -/
def USlotDataTask.Bind (M : USaveManager) (Task : Nat) (Callback : Nat) : USaveManager :=
  M.SetObject Task { M.Object Task with Delegate := some Callback }

/-- `USaveManager::CreateTask` (SaveManager.cpp 263-269): a new task object is
created and added to `Tasks`; the pointer to it is returned. -/
def CreateTask (M : USaveManager) (TaskType : ETaskType) : USaveManager × Nat :=
  let Task := M.Objects.length
  ({ M with Objects := M.Objects ++ [NewObject TaskType], Tasks := TArray.Add M.Tasks Task }, Task)

/-- `USaveManager::FinishTask` (SaveManager.cpp 271-278). -/
def FinishTask (M : USaveManager) (Task : Nat) : USaveManager :=
  let M1 := { M with Tasks := TArray.Remove M.Tasks Task }
  match M1.Tasks with
  | [] => M1
  | Head :: _ => USlotDataTask.Start M1 Head

/-- Modelled from the spec: `USlotDataTask::Finish` (not among the sources):
sets the terminal state and signals the manager to dequeue the task. -/
def USlotDataTask.Finish (M : USaveManager) (Task : Nat) (bSuccess : Bool) : USaveManager :=
  FinishTask (M.SetState Task (if bSuccess then ETaskState.Succeeded else ETaskState.Failed)) Task

/-- Modelled from the spec: `USlotDataTask::Tick` (the subclasses are not among
the sources): the task advances its internal step; `Outcome` tells whether this
step ends the task (`some bSuccess`, the task calls `Finish`) or not (`none`). -/
def USlotDataTask.Tick (M : USaveManager) (Task : Nat) (Outcome : Option Bool) : USaveManager :=
  match Outcome with
  | none => M
  | some bSuccess => USlotDataTask.Finish M Task bSuccess

/-- `USaveManager::SaveSlot` (SaveManager.cpp 56-81). The assertion
`check(World)` cannot fail after `CanLoadOrSave` and is left out. -/
def SaveSlot (E : FEngine) (M : USaveManager) (SlotId : Int) (bOverrideIfNeeded bScreenshot : Bool)
    (Size : FScreenshotSize) (OnSaved : Nat) : Bool × USaveManager :=
  if !CanLoadOrSave E then (false, M)
  else if !IsValidSlot E SlotId then (false, M)
  else
    let C := CreateTask M ETaskType.Saver
    let M1 := USlotDataTask_Saver.Setup C.1 C.2 SlotId bOverrideIfNeeded bScreenshot Size.Width Size.Height
    let M2 := USlotDataTask.Bind M1 C.2 OnSaved
    let M3 := USlotDataTask.Start M2 C.2
    (USlotDataTask.IsSucceeded M3 C.2 || USlotDataTask.IsScheduled M3 C.2, M3)

/-- `USaveManager::LoadSlot` (SaveManager.cpp 83-99). `TryInstantiateInfo`
only touches `CurrentInfo` and `CurrentData` and is left out. -/
def LoadSlot (E : FEngine) (M : USaveManager) (SlotId : Int) (OnLoaded : Nat) : Bool × USaveManager :=
  if !CanLoadOrSave E then (false, M)
  else if !IsSlotSaved E SlotId then (false, M)
  else
    let C := CreateTask M ETaskType.Loader
    let M1 := USlotDataTask_Loader.Setup C.1 C.2 SlotId
    let M2 := USlotDataTask.Bind M1 C.2 OnLoaded
    let M3 := USlotDataTask.Start M2 C.2
    (USlotDataTask.IsSucceeded M3 C.2 || USlotDataTask.IsScheduled M3 C.2, M3)

/-- `USaveManager::SerializeStreamingLevel` (SaveManager.cpp 227-230). -/
def SerializeStreamingLevel (M : USaveManager) (LevelStreaming : Nat) : USaveManager :=
  let C := CreateTask M ETaskType.LevelSaver
  USlotDataTask.Start (USlotDataTask_Level.Setup C.1 C.2 LevelStreaming) C.2

/-- `USaveManager::DeserializeStreamingLevel` (SaveManager.cpp 232-235). -/
def DeserializeStreamingLevel (M : USaveManager) (LevelStreaming : Nat) : USaveManager :=
  let C := CreateTask M ETaskType.LevelLoader
  USlotDataTask.Start (USlotDataTask_Level.Setup C.1 C.2 LevelStreaming) C.2

/-- `USaveManager::LoadAllSlotInfos` (SaveManager.cpp 112-118): a new background
job is allocated, started and added to `LoadInfosTasks`. -/
def LoadAllSlotInfos (M : USaveManager) (bSortByRecent : Bool) (Delegate : Nat) : USaveManager :=
  let LoadTask : FLoadAllSlotInfosTask :=
    { Address := M.NumAsyncTasks, bSortByRecent := bSortByRecent, Delegate := Delegate }
  { M with NumAsyncTasks := M.NumAsyncTasks + 1,
           LoadInfosTasks := TArray.Add M.LoadInfosTasks LoadTask }

/-- The lambda given to `RemoveAllSwap` in `Tick` (SaveManager.cpp 293-301):
a job that is done has its delegate called, is deleted, and is removed.
`IsDone` is the state of the background jobs at the time of the call; the log
records each `CallDelegate` (the job class is not among the sources; by the
spec the call invokes the job's `onDone`). -/
def TickPredicate (IsDone : FLoadAllSlotInfosTask → Bool) (Task : FLoadAllSlotInfosTask)
    (Log : List FLoadAllSlotInfosTask) : Bool × List FLoadAllSlotInfosTask :=
  if IsDone Task then (true, Log ++ [Task]) else (false, Log)

/-- `USaveManager::Tick` (SaveManager.cpp 280-302). `Outcome` is what the head
task's own `Tick` does, `IsDone` the state of the background jobs. -/
def Tick (M : USaveManager) (Outcome : Option Bool) (IsDone : FLoadAllSlotInfosTask → Bool) :
    USaveManager :=
  let M1 :=
    match M.Tasks with
    | [] => M
    | Task :: _ =>
      if USlotDataTask.IsRunning M Task then USlotDataTask.Tick M Task Outcome else M
  let R := TArray.RemoveAllSwap (TickPredicate IsDone) M1.LoadInfosTasks M1.DelegateCalls
  { M1 with LoadInfosTasks := R.1, DelegateCalls := R.2 }

/-- `USaveManager::SubscribeForEvents` (SaveManager.cpp 304-307). -/
def SubscribeForEvents (M : USaveManager) (Interface : Nat) : USaveManager :=
  { M with SubscribedInterfaces := TArray.AddUnique M.SubscribedInterfaces Interface }

/-- `USaveManager::UnsubscribeFromEvents` (SaveManager.cpp 309-312). -/
def UnsubscribeFromEvents (M : USaveManager) (Interface : Nat) : USaveManager :=
  { M with SubscribedInterfaces := TArray.Remove M.SubscribedInterfaces Interface }

/-! ## Subscriber notification -/

/-- What the engine knows of an observer object at the time of an event:
whether the stored object pointer is still a valid object, whether
`Cast<ISaveExtensionInterface>` succeeds on it (the interface is implemented
natively), and whether its class implements the interface otherwise. -/
structure FObserver where
  bValid : Bool
  bNative : Bool
  bImplements : Bool
  deriving DecidableEq, Repr

/-- A handler invocation or broadcast made by a lifecycle event. -/
inductive FNotify where
  | Execute_OnSaveBegan (Object : Nat)
  | Execute_OnSaveFinished (Object : Nat) (bError : Bool)
  | Execute_OnLoadBegan (Object : Nat)
  | Execute_OnLoadFinished (Object : Nat) (bError : Bool)
  | OnGameSaved
  | OnGameLoaded
  deriving DecidableEq, Repr

/-- Modelled from the spec: `USaveManager::IterateSubscribedInterfaces` is
declared in SaveManager.h, which is not among the sources. The spec: the
handler is invoked on every currently subscribed observer, in subscription
order, and an observer that is no longer valid is skipped silently. -/
def IterateSubscribedInterfaces (M : USaveManager) (World : Nat → FObserver)
    (Callback : Nat → List FNotify) : List FNotify :=
  ((M.SubscribedInterfaces.filter (fun I => (World I).bValid)).map Callback).flatten

/-- The body shared by the four lambdas (SaveManager.cpp 317-327, 332-342,
352-362, 367-375): the handler runs when the cast to the interface succeeds,
or else when the class of the object implements the interface. -/
def ExecuteIfImplemented (World : Nat → FObserver) (Handler : Nat → FNotify) (Object : Nat) :
    List FNotify :=
  if (World Object).bNative then [Handler Object]
  else if (World Object).bImplements then [Handler Object]
  else []

/-- `USaveManager::OnSaveBegan` (SaveManager.cpp 315-328). -/
def OnSaveBegan (M : USaveManager) (World : Nat → FObserver) : List FNotify :=
  IterateSubscribedInterfaces M World (ExecuteIfImplemented World FNotify.Execute_OnSaveBegan)

/-- `USaveManager::OnSaveFinished` (SaveManager.cpp 330-348). -/
def OnSaveFinished (M : USaveManager) (World : Nat → FObserver) (bError : Bool) : List FNotify :=
  IterateSubscribedInterfaces M World
      (ExecuteIfImplemented World (fun Object => FNotify.Execute_OnSaveFinished Object bError))
    ++ (if !bError then [FNotify.OnGameSaved] else [])

/-- `USaveManager::OnLoadBegan` (SaveManager.cpp 350-363). -/
def OnLoadBegan (M : USaveManager) (World : Nat → FObserver) : List FNotify :=
  IterateSubscribedInterfaces M World (ExecuteIfImplemented World FNotify.Execute_OnLoadBegan)

/-- `USaveManager::OnLoadFinished` (SaveManager.cpp 365-381). -/
def OnLoadFinished (M : USaveManager) (World : Nat → FObserver) (bError : Bool) : List FNotify :=
  IterateSubscribedInterfaces M World
      (ExecuteIfImplemented World (fun Object => FNotify.Execute_OnLoadFinished Object bError))
    ++ (if !bError then [FNotify.OnGameLoaded] else [])

/-- A call of one of the two subscription entry points. -/
inductive FSubscriptionCall where
  | Subscribe (Interface : Nat)
  | Unsubscribe (Interface : Nat)
  deriving DecidableEq, Repr

/-- The manager after one subscription call. -/
def FSubscriptionCall.Apply (M : USaveManager) : FSubscriptionCall → USaveManager
  | FSubscriptionCall.Subscribe I => SubscribeForEvents M I
  | FSubscriptionCall.Unsubscribe I => UnsubscribeFromEvents M I

/-- The manager after a sequence of subscription calls. -/
def RunSubscriptions (M : USaveManager) (Calls : List FSubscriptionCall) : USaveManager :=
  Calls.foldl FSubscriptionCall.Apply M

/-- One step of the specification of "currently subscribed": the accumulator
holds the number of calls seen so far and, when the observer is subscribed,
the position of the subscription call that made it so. A further subscription
of a subscribed observer changes nothing; an unsubscription clears it. -/
def EffectiveStep (Observer : Nat) (Acc : Nat × Option Nat) :
    FSubscriptionCall → Nat × Option Nat
  | FSubscriptionCall.Subscribe I =>
    (Acc.1 + 1, if I = Observer then (match Acc.2 with | none => some Acc.1 | some K => some K) else Acc.2)
  | FSubscriptionCall.Unsubscribe I =>
    (Acc.1 + 1, if I = Observer then none else Acc.2)

/-- Specification, in the words of the subscription contract: the position in
`Calls` of the observer's first still-effective subscription, `none` when the
observer is not subscribed after `Calls`. -/
def EffectiveSubscription (Calls : List FSubscriptionCall) (Observer : Nat) : Option Nat :=
  (Calls.foldl (EffectiveStep Observer) (0, none)).2

/-! ## Runs of the manager -/

/-- A call on the manager, with the inputs read from its environment. -/
inductive FCall where
  | SaveSlot (E : FEngine) (SlotId : Int) (bOverrideIfNeeded bScreenshot : Bool)
      (Size : FScreenshotSize) (OnSaved : Nat)
  | LoadSlot (E : FEngine) (SlotId : Int) (OnLoaded : Nat)
  | SerializeStreamingLevel (LevelStreaming : Nat)
  | DeserializeStreamingLevel (LevelStreaming : Nat)
  | FinishTask (Task : Nat)
  | Tick (Outcome : Option Bool) (IsDone : FLoadAllSlotInfosTask → Bool)
  | LoadAllSlotInfos (bSortByRecent : Bool) (Delegate : Nat)

/-- The manager after one call. -/
def FCall.Apply (M : USaveManager) : FCall → USaveManager
  | FCall.SaveSlot E SlotId bOverrideIfNeeded bScreenshot Size OnSaved =>
    (SaveExtension.SaveSlot E M SlotId bOverrideIfNeeded bScreenshot Size OnSaved).2
  | FCall.LoadSlot E SlotId OnLoaded => (SaveExtension.LoadSlot E M SlotId OnLoaded).2
  | FCall.SerializeStreamingLevel L => SaveExtension.SerializeStreamingLevel M L
  | FCall.DeserializeStreamingLevel L => SaveExtension.DeserializeStreamingLevel M L
  | FCall.FinishTask Task => SaveExtension.FinishTask M Task
  | FCall.Tick Outcome IsDone => SaveExtension.Tick M Outcome IsDone
  | FCall.LoadAllSlotInfos bSortByRecent Delegate =>
    SaveExtension.LoadAllSlotInfos M bSortByRecent Delegate

/-- The manager after a sequence of calls, from a given state. -/
def RunFrom (M : USaveManager) (Calls : List FCall) : USaveManager :=
  Calls.foldl FCall.Apply M

/-- The manager after a sequence of calls on a new manager. -/
def Run (Calls : List FCall) : USaveManager :=
  RunFrom USaveManager.New Calls

/-- Whether every `FinishTask` call of the sequence is made on the task that is
the head of the queue at that time (as the running task's `Finish` does). -/
def FinishesHeadOnly : USaveManager → List FCall → Bool
  | _, [] => true
  | M, C :: Calls =>
    (match C with
     | FCall.FinishTask Task => decide (M.Tasks.head? = some Task)
     | _ => true) && FinishesHeadOnly (C.Apply M) Calls

/-- State of a task. -/
def USaveManager.StateOf (M : USaveManager) (Task : Nat) : ETaskState :=
  (M.Object Task).State


/-! ## Concrete inputs used by the worked examples -/

/-- An engine context with authority and a valid world, ten slots, and slot 5
saved (both of its blobs are in the blob store). -/
def ExampleEngine : FEngine :=
  { GameMode := some true, bWorldValid := true, MaxSlots := 10,
    Files := [FBlobName.Info 5, FBlobName.Data 5] }

/-- An engine context whose blob store holds both blobs named after the id -1. -/
def ExampleEngineStray : FEngine :=
  { GameMode := some true, bWorldValid := true, MaxSlots := 10,
    Files := [FBlobName.Info (-1), FBlobName.Data (-1)] }

/-- An engine context without authority. -/
def ExampleEngineNoAuthority : FEngine :=
  { GameMode := some false, bWorldValid := true, MaxSlots := 10,
    Files := [FBlobName.Info 5, FBlobName.Data 5] }

/-- A screenshot size. -/
def ExampleSize : FScreenshotSize := { Width := 640, Height := 360 }

/-- A manager whose queue holds one running Loader task. -/
def ExampleBusyManager : USaveManager :=
  (LoadSlot ExampleEngine USaveManager.New 5 1).2

/-! ## Auxiliary definitions for the proofs -/

/-- The common shape of the four admissions: the task object `O`, created,
set up and bound, is stored at the next free address, its pointer is added to
`Tasks`, and `Start()` is called on it. -/
def Admit (M : USaveManager) (O : USlotDataTask) : USaveManager :=
  USlotDataTask.Start
    { M with Objects := M.Objects ++ [O], Tasks := M.Tasks ++ [M.Objects.length] }
    M.Objects.length

/-- Whether a call is one of the four admissions. -/
def FCall.IsAdmission : FCall → Bool
  | FCall.SaveSlot _ _ _ _ _ _ => true
  | FCall.LoadSlot _ _ _ => true
  | FCall.SerializeStreamingLevel _ => true
  | FCall.DeserializeStreamingLevel _ => true
  | _ => false

/-- The invariant of the task queue, minus the requirement that the head is
already running: `Tasks` is in admission order and points to created objects,
the head is Running or Scheduled and every other queued task is Scheduled; the
tasks that began running (`OnStartCalls`) did so in admission order, none is
queued behind the head, and none is still waiting. -/
structure PreInv (M : USaveManager) : Prop where
  sorted : M.Tasks.Pairwise (fun A B => A < B)
  bound : ∀ T ∈ M.Tasks, T < M.Objects.length
  headish : ∀ T, M.Tasks.head? = some T →
    M.StateOf T = ETaskState.Running ∨ M.StateOf T = ETaskState.Scheduled
  tail : ∀ T ∈ M.Tasks.tail, M.StateOf T = ETaskState.Scheduled
  startBound : ∀ T ∈ M.StartCalls, T < M.Objects.length
  onStartSorted : M.OnStartCalls.Pairwise (fun A B => A < B)
  onStartLe : ∀ S ∈ M.OnStartCalls, ∀ T ∈ M.Tasks, S ≤ T
  onStartBound : ∀ S ∈ M.OnStartCalls, S < M.Objects.length
  onStartState : ∀ S ∈ M.OnStartCalls,
    M.StateOf S ≠ ETaskState.NotStarted ∧ M.StateOf S ≠ ETaskState.Scheduled

/-- The invariant of the task queue: `PreInv`, and the head of a non-empty
queue is Running. -/
structure QueueInv (M : USaveManager) : Prop where
  pre : PreInv M
  head : ∀ T, M.Tasks.head? = some T → M.StateOf T = ETaskState.Running

/-- The invariant on the number of `Start()` calls: at most one on a task that
waits behind the head, at most two on any task. -/
structure CountInv (M : USaveManager) : Prop where
  tail : ∀ T ∈ M.Tasks.tail, M.StartCalls.count T ≤ 1
  all : ∀ T, M.StartCalls.count T ≤ 2

/-- A run of three calls: two saves admitted one after the other, then the
first task finishes. -/
def ExampleCalls : List FCall :=
  [FCall.SaveSlot ExampleEngine 1 true false ExampleSize 7,
   FCall.SaveSlot ExampleEngine 2 true false ExampleSize 8,
   FCall.FinishTask 0]

/-- A run of two calls: two saves admitted one after the other. -/
def ExampleCallsTwo : List FCall :=
  [FCall.SaveSlot ExampleEngine 1 true false ExampleSize 7,
   FCall.SaveSlot ExampleEngine 2 true false ExampleSize 8]

/-- Whether a lifecycle event reaches the handler of an observer: its object is
still valid and implements the interface, natively or through its class. -/
def Capable (World : Nat → FObserver) (Object : Nat) : Bool :=
  (World Object).bValid && ((World Object).bNative || (World Object).bImplements)

/-- The subscriber list after a sequence of subscription calls on a new manager. -/
def Subscribers (Calls : List FSubscriptionCall) : List Nat :=
  (RunSubscriptions USaveManager.New Calls).SubscribedInterfaces

/-- A world in which every observer is a valid object implementing the
interface natively. -/
def ExampleWorld : Nat → FObserver :=
  fun _ => { bValid := true, bNative := true, bImplements := false }

/-- Observer 1 subscribes, observer 2 subscribes twice, observer 1 unsubscribes
and subscribes again. -/
def ExampleSubscriptions : List FSubscriptionCall :=
  [FSubscriptionCall.Subscribe 1, FSubscriptionCall.Subscribe 2, FSubscriptionCall.Subscribe 2,
   FSubscriptionCall.Unsubscribe 1, FSubscriptionCall.Subscribe 1]

/-- The invariant of the enumeration jobs: the pending jobs are distinct and
were allocated by this manager, the jobs whose delegate was called are
distinct and are no longer pending. -/
structure EnumInv (M : USaveManager) : Prop where
  nodupTasks : M.LoadInfosTasks.Nodup
  boundTasks : ∀ J ∈ M.LoadInfosTasks, J.Address < M.NumAsyncTasks
  boundCalls : ∀ J ∈ M.DelegateCalls, J.Address < M.NumAsyncTasks
  nodupCalls : M.DelegateCalls.Nodup
  disjoint : ∀ J ∈ M.DelegateCalls, J ∉ M.LoadInfosTasks

/-! ## Heap lemmas -/

theorem Object_SetObject (M : USaveManager) (P Q : Nat) (O : USlotDataTask) :
    (M.SetObject P O).Object Q = if Q = P ∧ P < M.Objects.length then O else M.Object Q := by
  unfold USaveManager.SetObject USaveManager.Object
  simp only [List.getD_eq_getElem?_getD, List.getElem?_set]
  by_cases h : P = Q
  · subst h
    by_cases h2 : P < M.Objects.length
    · simp [h2]
    · simp [h2, List.getElem?_eq_none (Nat.le_of_not_lt h2)]
  · have h3 : ¬ Q = P := fun e => h e.symm
    simp [h, h3]

theorem length_SetObject (M : USaveManager) (P : Nat) (O : USlotDataTask) :
    (M.SetObject P O).Objects.length = M.Objects.length := by
  simp [USaveManager.SetObject]

/-! ## Blob store entry points -/

theorem DoesFileExist_DeleteFile_of_false (E : FEngine) (Name : FBlobName)
    (h : FFileAdapter.DoesFileExist E Name = false) :
    FFileAdapter.DeleteFile E Name = (false, E) := by
  simp [FFileAdapter.DeleteFile, h]

/-- C5 (as stated, refuted): both blobs named after the id -1 are in the blob
store, yet `IsSlotSaved (-1)` is false, because the id is out of range. -/
theorem IsSlotSaved_out_of_range_counterexample :
    ¬ (IsSlotSaved ExampleEngineStray (-1) = true ↔
        (FFileAdapter.DoesFileExist ExampleEngineStray (GenerateSlotInfoName (-1)) = true ∧
         FFileAdapter.DoesFileExist ExampleEngineStray (GenerateSlotDataName (-1)) = true)) := by
  decide

/-- C5 (amended): for all slot ids and every blob-store state, `IsSlotSaved id`
is true iff the id is a valid slot (`0 <= id < MaxSlots`) and both the metadata
blob and the data blob of the id exist in the blob store. -/
theorem IsSlotSaved_iff_valid_and_both_blobs (E : FEngine) (SlotId : Int) :
    IsSlotSaved E SlotId = true ↔
      (IsValidSlot E SlotId = true ∧
       FFileAdapter.DoesFileExist E (GenerateSlotInfoName SlotId) = true ∧
       FFileAdapter.DoesFileExist E (GenerateSlotDataName SlotId) = true) := by
  unfold IsSlotSaved
  cases hv : IsValidSlot E SlotId <;> simp

/-- C6 (the code at the failing input): slot 5 is valid and both of its blobs
exist; `DeleteSlot 5` reports success, removes the metadata blob and leaves the
data blob in the blob store, since the second `DeleteFile` is not evaluated. -/
theorem DeleteSlot_keeps_data_blob_when_both_exist :
    IsValidSlot ExampleEngine 5 = true ∧
    FFileAdapter.DoesFileExist ExampleEngine (GenerateSlotInfoName 5) = true ∧
    FFileAdapter.DoesFileExist ExampleEngine (GenerateSlotDataName 5) = true ∧
    (DeleteSlot ExampleEngine 5).1 = true ∧
    FFileAdapter.DoesFileExist (DeleteSlot ExampleEngine 5).2 (GenerateSlotInfoName 5) = false ∧
    FFileAdapter.DoesFileExist (DeleteSlot ExampleEngine 5).2 (GenerateSlotDataName 5) = true := by
  decide

/-- C7: with a blob store whose delete succeeds exactly when the named blob
exists, `DeleteSlot id` on a valid id returns true iff the metadata blob or the
data blob of the id existed before the call; on an id outside `[0, MaxSlots)`
it returns false and leaves the blob store unchanged. -/
theorem DeleteSlot_result (E : FEngine) (SlotId : Int) :
    (IsValidSlot E SlotId = true →
      ((DeleteSlot E SlotId).1 = true ↔
        (FFileAdapter.DoesFileExist E (GenerateSlotInfoName SlotId) = true ∨
         FFileAdapter.DoesFileExist E (GenerateSlotDataName SlotId) = true))) ∧
    (IsValidSlot E SlotId = false → DeleteSlot E SlotId = (false, E)) := by
  constructor
  · intro hv
    unfold DeleteSlot
    simp only [hv, Bool.not_true, Bool.false_eq_true, if_false]
    cases hi : FFileAdapter.DoesFileExist E (GenerateSlotInfoName SlotId)
    · rw [DoesFileExist_DeleteFile_of_false E _ hi]
      cases hd : FFileAdapter.DoesFileExist E (GenerateSlotDataName SlotId)
      · rw [DoesFileExist_DeleteFile_of_false E _ hd]; simp
      · simp [FFileAdapter.DeleteFile, hd]
    · simp [FFileAdapter.DeleteFile, hi]
  · intro hv
    simp [DeleteSlot, hv]

/-- C7 (worked example): slot 5 is valid and saved, so `DeleteSlot 5` returns
true; the id -1 is out of range, so `DeleteSlot (-1)` returns false and the
blob store is unchanged. -/
theorem DeleteSlot_result_witness :
    ((DeleteSlot ExampleEngine 5).1 = true ↔
      (FFileAdapter.DoesFileExist ExampleEngine (GenerateSlotInfoName 5) = true ∨
       FFileAdapter.DoesFileExist ExampleEngine (GenerateSlotDataName 5) = true)) ∧
    DeleteSlot ExampleEngine (-1) = (false, ExampleEngine) :=
  ⟨(DeleteSlot_result ExampleEngine 5).1 (by decide),
   (DeleteSlot_result ExampleEngine (-1)).2 (by decide)⟩

/-! ## Effect of `Start` -/

theorem StateOf_SetState (M : USaveManager) (P Q : Nat) (S : ETaskState) :
    (M.SetState P S).StateOf Q = if Q = P ∧ P < M.Objects.length then S else M.StateOf Q := by
  unfold USaveManager.SetState USaveManager.StateOf
  rw [Object_SetObject]
  split <;> rfl

theorem Start_Tasks (M : USaveManager) (T : Nat) : (USlotDataTask.Start M T).Tasks = M.Tasks := by
  unfold USlotDataTask.Start
  simp only []
  split
  · split <;> rfl
  · rfl

theorem Start_length (M : USaveManager) (T : Nat) :
    (USlotDataTask.Start M T).Objects.length = M.Objects.length := by
  unfold USlotDataTask.Start
  simp only []
  split
  · split <;> simp [USaveManager.SetState, USaveManager.SetObject]
  · rfl

theorem Start_StartCalls (M : USaveManager) (T : Nat) :
    (USlotDataTask.Start M T).StartCalls = M.StartCalls ++ [T] := by
  unfold USlotDataTask.Start
  simp only []
  split
  · split <;> rfl
  · rfl

theorem Start_LoadInfosTasks (M : USaveManager) (T : Nat) :
    (USlotDataTask.Start M T).LoadInfosTasks = M.LoadInfosTasks ∧
    (USlotDataTask.Start M T).DelegateCalls = M.DelegateCalls ∧
    (USlotDataTask.Start M T).NumAsyncTasks = M.NumAsyncTasks := by
  unfold USlotDataTask.Start
  simp only []
  split
  · split <;> exact ⟨rfl, rfl, rfl⟩
  · exact ⟨rfl, rfl, rfl⟩

theorem Start_OnStartCalls (M : USaveManager) (T : Nat) :
    (USlotDataTask.Start M T).OnStartCalls =
      if (M.StateOf T = ETaskState.NotStarted ∨ M.StateOf T = ETaskState.Scheduled) ∧
         M.Tasks.head? = some T
      then M.OnStartCalls ++ [T] else M.OnStartCalls := by
  unfold USlotDataTask.Start USaveManager.StateOf
  simp only []
  by_cases h1 : (M.Object T).State = ETaskState.NotStarted ∨ (M.Object T).State = ETaskState.Scheduled
  · by_cases h2 : M.Tasks.head? = some T
    · simp only [h1, h2, if_true, and_self]
    · simp only [h1, h2, if_true, if_false, and_false]
      rfl
  · simp only [h1, if_false, false_and]

theorem Start_StateOf (M : USaveManager) (T Q : Nat) :
    (USlotDataTask.Start M T).StateOf Q =
      if Q = T ∧ T < M.Objects.length ∧
         (M.StateOf T = ETaskState.NotStarted ∨ M.StateOf T = ETaskState.Scheduled)
      then (if M.Tasks.head? = some T then ETaskState.Running else ETaskState.Scheduled)
      else M.StateOf Q := by
  unfold USlotDataTask.Start
  simp only []
  by_cases h1 : (M.Object T).State = ETaskState.NotStarted ∨ (M.Object T).State = ETaskState.Scheduled
  · have h1' : M.StateOf T = ETaskState.NotStarted ∨ M.StateOf T = ETaskState.Scheduled := h1
    by_cases h2 : M.Tasks.head? = some T
    · simp only [h1, h2, if_true]
      have : ∀ (X : USaveManager) (L : List Nat), USaveManager.StateOf
          { X with OnStartCalls := L } Q = X.StateOf Q := fun _ _ => rfl
      rw [this, StateOf_SetState]
      simp only [h1', and_true]
      rfl
    · simp only [h1, h2, if_true, if_false]
      rw [StateOf_SetState]
      simp only [h1', and_true]
      rfl
  · have h1' : ¬ (M.StateOf T = ETaskState.NotStarted ∨ M.StateOf T = ETaskState.Scheduled) := h1
    simp only [h1, h1', if_false, and_false]
    rfl

/-! ## Admissions -/

theorem Admit_Tasks (M : USaveManager) (O : USlotDataTask) :
    (Admit M O).Tasks = M.Tasks ++ [M.Objects.length] := by
  unfold Admit
  rw [Start_Tasks]

theorem Admit_length (M : USaveManager) (O : USlotDataTask) :
    (Admit M O).Objects.length = M.Objects.length + 1 := by
  unfold Admit
  rw [Start_length]
  simp

theorem Admit_StartCalls (M : USaveManager) (O : USlotDataTask) :
    (Admit M O).StartCalls = M.StartCalls ++ [M.Objects.length] := by
  unfold Admit
  rw [Start_StartCalls]

theorem Admit_LoadInfosTasks (M : USaveManager) (O : USlotDataTask) :
    (Admit M O).LoadInfosTasks = M.LoadInfosTasks ∧
    (Admit M O).DelegateCalls = M.DelegateCalls ∧
    (Admit M O).NumAsyncTasks = M.NumAsyncTasks := by
  unfold Admit
  exact Start_LoadInfosTasks _ _

theorem StateOf_append_lt (M : USaveManager) (O : USlotDataTask) (L : List Nat) (Q : Nat)
    (h : Q < M.Objects.length) :
    USaveManager.StateOf { M with Objects := M.Objects ++ [O], Tasks := L } Q = M.StateOf Q := by
  unfold USaveManager.StateOf USaveManager.Object
  simp [List.getD_eq_getElem?_getD, List.getElem?_append_left h]

theorem StateOf_append_new (M : USaveManager) (O : USlotDataTask) (L : List Nat) :
    USaveManager.StateOf { M with Objects := M.Objects ++ [O], Tasks := L } M.Objects.length
      = O.State := by
  unfold USaveManager.StateOf USaveManager.Object
  simp [List.getD_eq_getElem?_getD]

theorem head?_append_singleton (L : List Nat) (X : Nat) :
    (L ++ [X]).head? = some X ↔ (L = [] ∨ L.head? = some X) := by
  cases L <;> simp

theorem Admit_OnStartCalls (M : USaveManager) (O : USlotDataTask)
    (hO : O.State = ETaskState.NotStarted) (hb : ∀ T ∈ M.Tasks, T < M.Objects.length) :
    (Admit M O).OnStartCalls =
      if M.Tasks = [] then M.OnStartCalls ++ [M.Objects.length] else M.OnStartCalls := by
  unfold Admit
  rw [Start_OnStartCalls, StateOf_append_new, hO]
  simp only [true_or, true_and]
  cases hT : M.Tasks with
  | nil => simp
  | cons A Rest =>
    have : A < M.Objects.length := hb A (by simp [hT])
    have hne : ¬ A = M.Objects.length := Nat.ne_of_lt this
    simp [hne]

theorem Admit_StateOf (M : USaveManager) (O : USlotDataTask)
    (hO : O.State = ETaskState.NotStarted) (hb : ∀ T ∈ M.Tasks, T < M.Objects.length) (Q : Nat) :
    (Admit M O).StateOf Q =
      if Q = M.Objects.length then
        (if M.Tasks = [] then ETaskState.Running else ETaskState.Scheduled)
      else M.StateOf Q := by
  unfold Admit
  rw [Start_StateOf, StateOf_append_new, hO]
  by_cases hQ : Q = M.Objects.length
  · subst hQ
    simp only [true_or, and_true, true_and, List.length_append, List.length_singleton,
      Nat.lt_succ_self, if_true]
    cases hT : M.Tasks with
    | nil => simp
    | cons A Rest =>
      have : A < M.Objects.length := hb A (by simp [hT])
      have hne : ¬ A = M.Objects.length := Nat.ne_of_lt this
      simp [hne]
  · simp only [hQ, false_and, if_false]
    unfold USaveManager.StateOf USaveManager.Object
    simp only [List.getD_eq_getElem?_getD]
    by_cases hlt : Q < M.Objects.length
    · rw [List.getElem?_append_left hlt]
    · have h1 : M.Objects.length + 1 ≤ Q := by omega
      rw [List.getElem?_eq_none (by simp; omega), List.getElem?_eq_none (by omega)]

theorem Objects_set_new (L : List USlotDataTask) (O O2 : USlotDataTask) :
    (L ++ [O]).set L.length O2 = L ++ [O2] := by
  induction L with
  | nil => rfl
  | cons A Rest ih => simp [ih]

theorem Objects_getD_new (L : List USlotDataTask) (O D : USlotDataTask) :
    (L ++ [O]).getD L.length D = O := by
  simp [List.getD_eq_getElem?_getD]

theorem SaveSlot_eq_Admit (E : FEngine) (M : USaveManager) (SlotId : Int)
    (bOverrideIfNeeded bScreenshot : Bool) (Size : FScreenshotSize) (OnSaved : Nat)
    (h1 : CanLoadOrSave E = true) (h2 : IsValidSlot E SlotId = true) :
    (SaveSlot E M SlotId bOverrideIfNeeded bScreenshot Size OnSaved).2 =
      Admit M { NewObject ETaskType.Saver with
        Slot := SlotId, bOverride := bOverrideIfNeeded, bSaveThumbnail := bScreenshot,
        Width := Size.Width, Height := Size.Height, Delegate := some OnSaved } := by
  simp only [SaveSlot, h1, h2, Bool.not_true, Bool.false_eq_true, if_false, Admit, CreateTask,
    USlotDataTask_Saver.Setup, USlotDataTask.Bind, USaveManager.SetObject, USaveManager.Object,
    TArray.Add, Objects_set_new, Objects_getD_new]

theorem LoadSlot_eq_Admit (E : FEngine) (M : USaveManager) (SlotId : Int) (OnLoaded : Nat)
    (h1 : CanLoadOrSave E = true) (h2 : IsSlotSaved E SlotId = true) :
    (LoadSlot E M SlotId OnLoaded).2 =
      Admit M { NewObject ETaskType.Loader with Slot := SlotId, Delegate := some OnLoaded } := by
  simp only [LoadSlot, h1, h2, Bool.not_true, Bool.false_eq_true, if_false, Admit, CreateTask,
    USlotDataTask_Loader.Setup, USlotDataTask.Bind, USaveManager.SetObject, USaveManager.Object,
    TArray.Add, Objects_set_new, Objects_getD_new]

theorem SerializeStreamingLevel_eq_Admit (M : USaveManager) (LevelStreaming : Nat) :
    SerializeStreamingLevel M LevelStreaming =
      Admit M { NewObject ETaskType.LevelSaver with Level := some LevelStreaming } := by
  simp only [SerializeStreamingLevel, Admit, CreateTask, USlotDataTask_Level.Setup,
    USaveManager.SetObject, USaveManager.Object, TArray.Add, Objects_set_new, Objects_getD_new]

theorem DeserializeStreamingLevel_eq_Admit (M : USaveManager) (LevelStreaming : Nat) :
    DeserializeStreamingLevel M LevelStreaming =
      Admit M { NewObject ETaskType.LevelLoader with Level := some LevelStreaming } := by
  simp only [DeserializeStreamingLevel, Admit, CreateTask, USlotDataTask_Level.Setup,
    USaveManager.SetObject, USaveManager.Object, TArray.Add, Objects_set_new, Objects_getD_new]

theorem SaveSlot_rejected (E : FEngine) (M : USaveManager) (SlotId : Int)
    (bOverrideIfNeeded bScreenshot : Bool) (Size : FScreenshotSize) (OnSaved : Nat)
    (h : CanLoadOrSave E = false ∨ IsValidSlot E SlotId = false) :
    SaveSlot E M SlotId bOverrideIfNeeded bScreenshot Size OnSaved = (false, M) := by
  unfold SaveSlot
  cases h1 : CanLoadOrSave E
  · simp
  · cases h with
    | inl h => rw [h1] at h; cases h
    | inr h => simp [h]

theorem LoadSlot_rejected (E : FEngine) (M : USaveManager) (SlotId : Int) (OnLoaded : Nat)
    (h : CanLoadOrSave E = false ∨ IsSlotSaved E SlotId = false) :
    LoadSlot E M SlotId OnLoaded = (false, M) := by
  unfold LoadSlot
  cases h1 : CanLoadOrSave E
  · simp
  · cases h with
    | inl h => rw [h1] at h; cases h
    | inr h => simp [h]

/-- Every admission call either leaves the manager as it is (the request was
rejected) or admits a not yet started task object. -/
theorem Admission_cases (M : USaveManager) (C : FCall) (hC : C.IsAdmission = true) :
    C.Apply M = M ∨ ∃ O : USlotDataTask, O.State = ETaskState.NotStarted ∧ C.Apply M = Admit M O := by
  cases C with
  | SaveSlot E SlotId bO bS Size OnSaved =>
    by_cases h1 : CanLoadOrSave E = true
    · by_cases h2 : IsValidSlot E SlotId = true
      · right
        exact ⟨_, rfl, SaveSlot_eq_Admit E M SlotId bO bS Size OnSaved h1 h2⟩
      · left
        show (SaveSlot E M SlotId bO bS Size OnSaved).2 = M
        rw [SaveSlot_rejected E M SlotId bO bS Size OnSaved (Or.inr (by simpa using h2))]
    · left
      show (SaveSlot E M SlotId bO bS Size OnSaved).2 = M
      rw [SaveSlot_rejected E M SlotId bO bS Size OnSaved (Or.inl (by simpa using h1))]
  | LoadSlot E SlotId OnLoaded =>
    by_cases h1 : CanLoadOrSave E = true
    · by_cases h2 : IsSlotSaved E SlotId = true
      · right
        exact ⟨_, rfl, LoadSlot_eq_Admit E M SlotId OnLoaded h1 h2⟩
      · left
        show (LoadSlot E M SlotId OnLoaded).2 = M
        rw [LoadSlot_rejected E M SlotId OnLoaded (Or.inr (by simpa using h2))]
    · left
      show (LoadSlot E M SlotId OnLoaded).2 = M
      rw [LoadSlot_rejected E M SlotId OnLoaded (Or.inl (by simpa using h1))]
  | SerializeStreamingLevel L =>
    right
    exact ⟨_, rfl, SerializeStreamingLevel_eq_Admit M L⟩
  | DeserializeStreamingLevel L =>
    right
    exact ⟨_, rfl, DeserializeStreamingLevel_eq_Admit M L⟩
  | FinishTask T => cases hC
  | Tick O D => cases hC
  | LoadAllSlotInfos b D => cases hC

/-! ## Admission checks -/

theorem IsValidSlot_eq_false_iff (E : FEngine) (SlotId : Int) :
    IsValidSlot E SlotId = false ↔ (SlotId < 0 ∨ E.MaxSlots ≤ SlotId) := by
  unfold IsValidSlot
  rw [decide_eq_false_iff_not]
  omega

/-- C3 (as stated, refuted): slot 5 is valid and saved (both blobs present)
and a Loader task is running; `SaveSlot 5` without the overwrite flag returns
true and appends a Saver task to `Tasks`. -/
theorem SaveSlot_overwrite_counterexample :
    IsValidSlot ExampleEngine 5 = true ∧ IsSlotSaved ExampleEngine 5 = true ∧
    ExampleBusyManager.Tasks = [0] ∧
    (SaveSlot ExampleEngine ExampleBusyManager 5 false false ExampleSize 7).2.Tasks = [0, 1] ∧
    ¬ ((SaveSlot ExampleEngine ExampleBusyManager 5 false false ExampleSize 7).1 = false ∧
       (SaveSlot ExampleEngine ExampleBusyManager 5 false false ExampleSize 7).2.Tasks
         = ExampleBusyManager.Tasks) := by
  decide

/-- C4: a rejected admission creates no task. The ids -1 and `MaxSlots` are
not valid slots. For every manager state, `SaveSlot` with a slot id outside
`[0, MaxSlots)`, `SaveSlot` and `LoadSlot` when `CanLoadOrSave` is false, and
`LoadSlot` on a slot for which `IsSlotSaved` is false, return false and leave
the manager (its queue, its task objects, its logs of `Start` calls) as it
was. -/
theorem rejected_admission_creates_no_task (E : FEngine) (M : USaveManager) (SlotId : Int)
    (bOverrideIfNeeded bScreenshot : Bool) (Size : FScreenshotSize) (OnSaved OnLoaded : Nat) :
    SaveSlot E M (-1) bOverrideIfNeeded bScreenshot Size OnSaved = (false, M) ∧
    SaveSlot E M E.MaxSlots bOverrideIfNeeded bScreenshot Size OnSaved = (false, M) ∧
    ((SlotId < 0 ∨ E.MaxSlots ≤ SlotId) →
      SaveSlot E M SlotId bOverrideIfNeeded bScreenshot Size OnSaved = (false, M)) ∧
    (CanLoadOrSave E = false →
      SaveSlot E M SlotId bOverrideIfNeeded bScreenshot Size OnSaved = (false, M) ∧
      LoadSlot E M SlotId OnLoaded = (false, M)) ∧
    (IsSlotSaved E SlotId = false → LoadSlot E M SlotId OnLoaded = (false, M)) := by
  refine ⟨?_, ?_, ?_, ?_, ?_⟩
  · exact SaveSlot_rejected _ _ _ _ _ _ _
      (Or.inr ((IsValidSlot_eq_false_iff E (-1)).mpr (Or.inl (by decide))))
  · exact SaveSlot_rejected _ _ _ _ _ _ _
      (Or.inr ((IsValidSlot_eq_false_iff E E.MaxSlots).mpr (Or.inr (Int.le_refl _))))
  · intro h
    exact SaveSlot_rejected _ _ _ _ _ _ _ (Or.inr ((IsValidSlot_eq_false_iff E SlotId).mpr h))
  · intro h
    exact ⟨SaveSlot_rejected _ _ _ _ _ _ _ (Or.inl h), LoadSlot_rejected _ _ _ _ (Or.inl h)⟩
  · intro h
    exact LoadSlot_rejected _ _ _ _ (Or.inr h)

/-- C4 (worked example): on a manager with a running task, a save to slot 12
of 10, a save and a load without authority, and a load of the unsaved slot 3
are all rejected and change nothing. -/
theorem rejected_admission_creates_no_task_witness :
    SaveSlot ExampleEngine ExampleBusyManager 12 true false ExampleSize 7
      = (false, ExampleBusyManager) ∧
    (SaveSlot ExampleEngineNoAuthority ExampleBusyManager 5 true false ExampleSize 7
      = (false, ExampleBusyManager) ∧
     LoadSlot ExampleEngineNoAuthority ExampleBusyManager 5 8 = (false, ExampleBusyManager)) ∧
    LoadSlot ExampleEngine ExampleBusyManager 3 8 = (false, ExampleBusyManager) :=
  ⟨(rejected_admission_creates_no_task ExampleEngine ExampleBusyManager 12 true false
      ExampleSize 7 8).2.2.1 (by decide),
   (rejected_admission_creates_no_task ExampleEngineNoAuthority ExampleBusyManager 5 true false
      ExampleSize 7 8).2.2.2.1 (by decide),
   (rejected_admission_creates_no_task ExampleEngine ExampleBusyManager 3 true false
      ExampleSize 7 8).2.2.2.2 (by decide)⟩

/-! ## `FinishTask` and the queue invariant -/

theorem FinishTask_Tasks (M : USaveManager) (T : Nat) :
    (FinishTask M T).Tasks = TArray.Remove M.Tasks T := by
  unfold FinishTask
  simp only []
  split
  · rfl
  · rw [Start_Tasks]

theorem FinishTask_length (M : USaveManager) (T : Nat) :
    (FinishTask M T).Objects.length = M.Objects.length := by
  unfold FinishTask
  simp only []
  split
  · rfl
  · rw [Start_length]

theorem FinishTask_StartCalls (M : USaveManager) (T : Nat) :
    (FinishTask M T).StartCalls = M.StartCalls ++ (TArray.Remove M.Tasks T).head?.toList := by
  unfold FinishTask
  simp only []
  split
  · rename_i h
    simp [h]
  · rename_i H R h
    rw [Start_StartCalls]
    simp [h]

theorem FinishTask_LoadInfosTasks (M : USaveManager) (T : Nat) :
    (FinishTask M T).LoadInfosTasks = M.LoadInfosTasks ∧
    (FinishTask M T).DelegateCalls = M.DelegateCalls ∧
    (FinishTask M T).NumAsyncTasks = M.NumAsyncTasks := by
  unfold FinishTask
  simp only []
  split
  · exact ⟨rfl, rfl, rfl⟩
  · exact Start_LoadInfosTasks _ _

theorem Remove_head_of_sorted (T : Nat) (Rest : List Nat)
    (h : (T :: Rest).Pairwise (fun A B => A < B)) : TArray.Remove (T :: Rest) T = Rest := by
  unfold TArray.Remove
  rw [List.pairwise_cons] at h
  rw [List.filter_cons_of_neg (by simp)]
  rw [List.filter_eq_self]
  intro A hA
  have := h.1 A hA
  simp only [ne_eq, decide_not, Bool.not_eq_true', decide_eq_false_iff_not]
  omega

theorem tail_filter_subset (p : Nat → Bool) (L : List Nat) :
    ∀ X ∈ (L.filter p).tail, X ∈ L.tail := by
  intro X hX
  cases L with
  | nil => simp at hX
  | cons A Rest =>
    by_cases hA : p A = true
    · rw [List.filter_cons_of_pos hA] at hX
      exact (List.mem_filter.mp hX).1
    · rw [List.filter_cons_of_neg hA] at hX
      exact (List.mem_filter.mp (List.mem_of_mem_tail hX)).1

theorem mem_head_or_tail (L : List Nat) (X : Nat) (h : X ∈ L) :
    L.head? = some X ∨ X ∈ L.tail := by
  cases L with
  | nil => simp at h
  | cons A Rest =>
    rcases List.mem_cons.mp h with h | h
    · left; simp [h]
    · right; exact h

/-- Calling `Start` on the head of a queue that satisfies `PreInv` establishes
the queue invariant. -/
theorem QueueInv_Start_head (M : USaveManager) (H : Nat) (R : List Nat) (hP : PreInv M)
    (hT : M.Tasks = H :: R) : QueueInv (USlotDataTask.Start M H) := by
  have hH : M.Tasks.head? = some H := by simp [hT]
  have hHlt : H < M.Objects.length := hP.bound H (by simp [hT])
  have hS := hP.sorted
  rw [hT, List.pairwise_cons] at hS
  have hRne : ∀ X ∈ R, X ≠ H := fun X hX => Nat.ne_of_gt (hS.1 X hX)
  have hst : ∀ Q, (USlotDataTask.Start M H).StateOf Q =
      if Q = H then ETaskState.Running else M.StateOf Q := by
    intro Q
    rw [Start_StateOf]
    by_cases hQ : Q = H
    · subst hQ
      rcases hP.headish Q hH with h | h
      · simp [h, hH]
      · simp [h, hH, hHlt]
    · simp [hQ]
  have hon : ∀ S ∈ (USlotDataTask.Start M H).OnStartCalls, S ∈ M.OnStartCalls ∨ S = H := by
    intro S hS'
    rw [Start_OnStartCalls] at hS'
    split at hS'
    · rcases List.mem_append.mp hS' with h | h
      · exact Or.inl h
      · exact Or.inr (by simpa using h)
    · exact Or.inl hS'
  refine ⟨⟨?_, ?_, ?_, ?_, ?_, ?_, ?_, ?_, ?_⟩, ?_⟩
  · rw [Start_Tasks]; exact hP.sorted
  · rw [Start_Tasks, Start_length]; exact hP.bound
  · rw [Start_Tasks]
    intro T hT'
    rw [hH] at hT'
    cases hT'
    left
    rw [hst]; simp
  · rw [Start_Tasks]
    intro T hT'
    rw [hst]
    have hTR : T ∈ R := by simpa [hT] using hT'
    rw [if_neg (hRne T hTR)]
    exact hP.tail T hT'
  · rw [Start_StartCalls, Start_length]
    intro T hT'
    rcases List.mem_append.mp hT' with h | h
    · exact hP.startBound T h
    · have : T = H := by simpa using h
      rw [this]; exact hHlt
  · rw [Start_OnStartCalls]
    split
    · rename_i hc
      rw [List.pairwise_append]
      refine ⟨hP.onStartSorted, List.pairwise_singleton _ _, ?_⟩
      intro S hS' B hB
      have hB' : B = H := by simpa using hB
      rw [hB']
      have hle : S ≤ H := hP.onStartLe S hS' H (by simp [hT])
      have hne : S ≠ H := by
        intro e
        rw [e] at hS'
        have := hP.onStartState H hS'
        rcases hc.1 with h | h
        · exact this.1 h
        · exact this.2 h
      omega
    · exact hP.onStartSorted
  · rw [Start_Tasks]
    intro S hS' T hT'
    rcases hon S hS' with h | h
    · exact hP.onStartLe S h T hT'
    · rw [h]
      rw [hT] at hT'
      rcases List.mem_cons.mp hT' with h2 | h2
      · rw [h2]
      · exact Nat.le_of_lt (hS.1 T h2)
  · rw [Start_length]
    intro S hS'
    rcases hon S hS' with h | h
    · exact hP.onStartBound S h
    · rw [h]; exact hHlt
  · intro S hS'
    rw [hst]
    by_cases hSH : S = H
    · simp [hSH]
    · rw [if_neg hSH]
      rcases hon S hS' with h | h
      · exact hP.onStartState S h
      · exact absurd h hSH
  · rw [Start_Tasks]
    intro T hT'
    rw [hH] at hT'
    cases hT'
    rw [hst]; simp

theorem PreInv_congr (M N : USaveManager) (h1 : N.Objects = M.Objects) (h2 : N.Tasks = M.Tasks)
    (h3 : N.StartCalls = M.StartCalls) (h4 : N.OnStartCalls = M.OnStartCalls) (h : PreInv M) :
    PreInv N := by
  have hs : ∀ Q, N.StateOf Q = M.StateOf Q := by
    intro Q
    unfold USaveManager.StateOf USaveManager.Object
    rw [h1]
  refine ⟨?_, ?_, ?_, ?_, ?_, ?_, ?_, ?_, ?_⟩
  · rw [h2]; exact h.sorted
  · rw [h2, h1]; exact h.bound
  · intro T hT; rw [hs]; rw [h2] at hT; exact h.headish T hT
  · intro T hT; rw [hs]; rw [h2] at hT; exact h.tail T hT
  · rw [h3, h1]; exact h.startBound
  · rw [h4]; exact h.onStartSorted
  · rw [h4, h2]; exact h.onStartLe
  · rw [h4, h1]; exact h.onStartBound
  · intro S hS; rw [hs]; rw [h4] at hS; exact h.onStartState S hS

theorem QueueInv_congr (M N : USaveManager) (h1 : N.Objects = M.Objects) (h2 : N.Tasks = M.Tasks)
    (h3 : N.StartCalls = M.StartCalls) (h4 : N.OnStartCalls = M.OnStartCalls) (h : QueueInv M) :
    QueueInv N := by
  refine ⟨PreInv_congr M N h1 h2 h3 h4 h.pre, ?_⟩
  intro T hT
  have hs : N.StateOf T = M.StateOf T := by
    unfold USaveManager.StateOf USaveManager.Object
    rw [h1]
  rw [hs]; rw [h2] at hT; exact h.head T hT

theorem QueueInv_New : QueueInv USaveManager.New := by
  refine ⟨⟨?_, ?_, ?_, ?_, ?_, ?_, ?_, ?_, ?_⟩, ?_⟩ <;> simp [USaveManager.New]

theorem QueueInv_Admit (M : USaveManager) (O : USlotDataTask) (h : QueueInv M)
    (hO : O.State = ETaskState.NotStarted) : QueueInv (Admit M O) := by
  have hb := h.pre.bound
  have hst := Admit_StateOf M O hO hb
  have hon := Admit_OnStartCalls M O hO hb
  have hold : ∀ Q, Q < M.Objects.length → (Admit M O).StateOf Q = M.StateOf Q := by
    intro Q hQ
    rw [hst, if_neg (Nat.ne_of_lt hQ)]
  have honmem : ∀ S ∈ (Admit M O).OnStartCalls,
      S ∈ M.OnStartCalls ∨ (S = M.Objects.length ∧ M.Tasks = []) := by
    intro S hS
    rw [hon] at hS
    split at hS
    · rename_i hnil
      rcases List.mem_append.mp hS with h1 | h1
      · exact Or.inl h1
      · exact Or.inr ⟨by simpa using h1, hnil⟩
    · exact Or.inl hS
  refine ⟨⟨?_, ?_, ?_, ?_, ?_, ?_, ?_, ?_, ?_⟩, ?_⟩
  · rw [Admit_Tasks, List.pairwise_append]
    refine ⟨h.pre.sorted, List.pairwise_singleton _ _, ?_⟩
    intro A hA B hB
    have : B = M.Objects.length := by simpa using hB
    rw [this]; exact hb A hA
  · rw [Admit_Tasks, Admit_length]
    intro T hT
    rcases List.mem_append.mp hT with h1 | h1
    · exact Nat.lt_succ_of_lt (hb T h1)
    · have : T = M.Objects.length := by simpa using h1
      rw [this]; exact Nat.lt_succ_self _
  · rw [Admit_Tasks]
    intro T hT
    rw [hst]
    cases hM : M.Tasks with
    | nil =>
      rw [hM] at hT
      have : M.Objects.length = T := by simpa using hT
      simp [this]
    | cons A Rest =>
      rw [hM] at hT
      have hTA : A = T := by simpa using hT
      have hlt : T < M.Objects.length := hb T (by simp [hM, hTA])
      rw [if_neg (Nat.ne_of_lt hlt)]
      left
      exact h.head T (by simp [hM, hTA])
  · rw [Admit_Tasks]
    intro T hT
    rw [hst]
    cases hM : M.Tasks with
    | nil => rw [hM] at hT; simp at hT
    | cons A Rest =>
      rw [hM] at hT
      have hT' : T ∈ Rest ∨ T = M.Objects.length := by simpa using hT
      rcases hT' with h1 | h1
      · have hlt : T < M.Objects.length := hb T (by simp [hM, h1])
        rw [if_neg (Nat.ne_of_lt hlt)]
        exact h.pre.tail T (by simp [hM, h1])
      · simp [h1]
  · rw [Admit_StartCalls, Admit_length]
    intro T hT
    rcases List.mem_append.mp hT with h1 | h1
    · exact Nat.lt_succ_of_lt (h.pre.startBound T h1)
    · have : T = M.Objects.length := by simpa using h1
      rw [this]; exact Nat.lt_succ_self _
  · rw [hon]
    split
    · rw [List.pairwise_append]
      refine ⟨h.pre.onStartSorted, List.pairwise_singleton _ _, ?_⟩
      intro A hA B hB
      have : B = M.Objects.length := by simpa using hB
      rw [this]; exact h.pre.onStartBound A hA
    · exact h.pre.onStartSorted
  · rw [Admit_Tasks]
    intro S hS T hT
    rcases honmem S hS with h1 | h1
    · rcases List.mem_append.mp hT with h2 | h2
      · exact h.pre.onStartLe S h1 T h2
      · have : T = M.Objects.length := by simpa using h2
        rw [this]; exact Nat.le_of_lt (h.pre.onStartBound S h1)
    · rw [h1.2] at hT
      have : T = M.Objects.length := by simpa using hT
      rw [this, h1.1]
  · rw [Admit_length]
    intro S hS
    rcases honmem S hS with h1 | h1
    · exact Nat.lt_succ_of_lt (h.pre.onStartBound S h1)
    · rw [h1.1]; exact Nat.lt_succ_self _
  · intro S hS
    rcases honmem S hS with h1 | h1
    · rw [hold S (h.pre.onStartBound S h1)]
      exact h.pre.onStartState S h1
    · rw [hst, h1.1, h1.2]
      simp
  · rw [Admit_Tasks]
    intro T hT
    rw [hst]
    cases hM : M.Tasks with
    | nil =>
      rw [hM] at hT
      have : M.Objects.length = T := by simpa using hT
      simp [this]
    | cons A Rest =>
      rw [hM] at hT
      have hTA : A = T := by simpa using hT
      have hlt : T < M.Objects.length := hb T (by simp [hM, hTA])
      rw [if_neg (Nat.ne_of_lt hlt)]
      exact h.head T (by simp [hM, hTA])

/-- Removing a task from the queue of a state that differs from an invariant
state at most by the removed task having become terminal. -/
theorem PreInv_remove (M M2 : USaveManager) (T : Nat) (h : QueueInv M)
    (h1 : M2.Objects.length = M.Objects.length) (h2 : M2.Tasks = M.Tasks)
    (h3 : M2.StartCalls = M.StartCalls) (h4 : M2.OnStartCalls = M.OnStartCalls)
    (h5 : ∀ Q, Q ≠ T → M2.StateOf Q = M.StateOf Q)
    (h6 : M2.StateOf T = M.StateOf T ∨ M2.StateOf T = ETaskState.Succeeded ∨
      M2.StateOf T = ETaskState.Failed) :
    PreInv { M2 with Tasks := TArray.Remove M2.Tasks T } := by
  have hmem : ∀ X ∈ TArray.Remove M2.Tasks T, X ∈ M.Tasks ∧ X ≠ T := by
    intro X hX
    unfold TArray.Remove at hX
    rw [h2] at hX
    have := List.mem_filter.mp hX
    exact ⟨this.1, by simpa using this.2⟩
  have hs : ∀ Q, USaveManager.StateOf { M2 with Tasks := TArray.Remove M2.Tasks T } Q
      = M2.StateOf Q := fun _ => rfl
  refine ⟨?_, ?_, ?_, ?_, ?_, ?_, ?_, ?_, ?_⟩
  · show (TArray.Remove M2.Tasks T).Pairwise _
    unfold TArray.Remove
    rw [h2]
    exact List.Pairwise.sublist (List.filter_sublist _) h.pre.sorted
  · intro X hX
    show X < M2.Objects.length
    rw [h1]
    exact h.pre.bound X (hmem X hX).1
  · intro X hX
    have hX' : (TArray.Remove M2.Tasks T).head? = some X := hX
    have hXm : X ∈ TArray.Remove M2.Tasks T := List.mem_of_mem_head? hX'
    rw [hs, h5 X (hmem X hXm).2]
    rcases mem_head_or_tail M.Tasks X (hmem X hXm).1 with h7 | h7
    · exact Or.inl (h.head X h7)
    · exact Or.inr (h.pre.tail X h7)
  · intro X hX
    have hX' : X ∈ (TArray.Remove M2.Tasks T).tail := hX
    have hXm : X ∈ TArray.Remove M2.Tasks T := List.mem_of_mem_tail hX'
    rw [hs, h5 X (hmem X hXm).2]
    unfold TArray.Remove at hX'
    rw [h2] at hX'
    exact h.pre.tail X (tail_filter_subset _ _ X hX')
  · show ∀ X ∈ M2.StartCalls, X < M2.Objects.length
    rw [h3, h1]; exact h.pre.startBound
  · show M2.OnStartCalls.Pairwise _
    rw [h4]; exact h.pre.onStartSorted
  · intro S hS X hX
    have hS' : S ∈ M2.OnStartCalls := hS
    rw [h4] at hS'
    exact h.pre.onStartLe S hS' X (hmem X hX).1
  · show ∀ X ∈ M2.OnStartCalls, X < M2.Objects.length
    rw [h4, h1]; exact h.pre.onStartBound
  · intro S hS
    have hS' : S ∈ M2.OnStartCalls := hS
    rw [h4] at hS'
    rw [hs]
    by_cases hST : S = T
    · subst hST
      rcases h6 with h6 | h6 | h6
      · rw [h6]; exact h.pre.onStartState S hS'
      · rw [h6]; simp
      · rw [h6]; simp
    · rw [h5 S hST]; exact h.pre.onStartState S hS'

theorem QueueInv_of_nil (M : USaveManager) (h : PreInv M) (hT : M.Tasks = []) : QueueInv M := by
  refine ⟨h, ?_⟩
  intro T hT'
  rw [hT] at hT'
  cases hT'

theorem QueueInv_FinishTask_gen (M M2 : USaveManager) (T : Nat) (h : QueueInv M)
    (h1 : M2.Objects.length = M.Objects.length) (h2 : M2.Tasks = M.Tasks)
    (h3 : M2.StartCalls = M.StartCalls) (h4 : M2.OnStartCalls = M.OnStartCalls)
    (h5 : ∀ Q, Q ≠ T → M2.StateOf Q = M.StateOf Q)
    (h6 : M2.StateOf T = M.StateOf T ∨ M2.StateOf T = ETaskState.Succeeded ∨
      M2.StateOf T = ETaskState.Failed) :
    QueueInv (FinishTask M2 T) := by
  have hP := PreInv_remove M M2 T h h1 h2 h3 h4 h5 h6
  unfold FinishTask
  simp only []
  split
  · rename_i hnil
    exact QueueInv_of_nil _ hP hnil
  · rename_i H R hcons
    exact QueueInv_Start_head _ H R hP hcons

theorem QueueInv_FinishTask (M : USaveManager) (T : Nat) (h : QueueInv M) :
    QueueInv (FinishTask M T) :=
  QueueInv_FinishTask_gen M M T h rfl rfl rfl rfl (fun _ _ => rfl) (Or.inl rfl)

theorem QueueInv_Finish (M : USaveManager) (T : Nat) (bSuccess : Bool) (h : QueueInv M) :
    QueueInv (USlotDataTask.Finish M T bSuccess) := by
  unfold USlotDataTask.Finish
  apply QueueInv_FinishTask_gen M _ T h
  · simp [USaveManager.SetState, USaveManager.SetObject]
  · rfl
  · rfl
  · rfl
  · intro Q hQ
    rw [StateOf_SetState]
    simp [hQ]
  · rw [StateOf_SetState]
    by_cases hlt : T < M.Objects.length
    · cases bSuccess <;> simp [hlt]
    · simp [hlt]

/-! ## Runs keep the queue invariant -/

/-- On the queue, `Tick` either does nothing or is the `Finish` of the head. -/
theorem Tick_queue (M : USaveManager) (Outcome : Option Bool)
    (IsDone : FLoadAllSlotInfosTask → Bool) :
    ∃ M1, (M1 = M ∨ ∃ H B, M.Tasks.head? = some H ∧ M1 = USlotDataTask.Finish M H B) ∧
      (Tick M Outcome IsDone).Objects = M1.Objects ∧
      (Tick M Outcome IsDone).Tasks = M1.Tasks ∧
      (Tick M Outcome IsDone).StartCalls = M1.StartCalls ∧
      (Tick M Outcome IsDone).OnStartCalls = M1.OnStartCalls := by
  unfold Tick
  cases hT : M.Tasks with
  | nil => exact ⟨M, Or.inl rfl, rfl, by simp [hT], rfl, rfl⟩
  | cons H R =>
    simp only []
    cases hR : USlotDataTask.IsRunning M H with
    | false => exact ⟨M, Or.inl rfl, rfl, by simp [hT], rfl, rfl⟩
    | true =>
      cases Outcome with
      | none => exact ⟨M, Or.inl rfl, rfl, by simp [hT, USlotDataTask.Tick], rfl, rfl⟩
      | some B =>
        exact ⟨USlotDataTask.Finish M H B, Or.inr ⟨H, B, by simp, rfl⟩, rfl, rfl, rfl, rfl⟩

theorem QueueInv_Apply (M : USaveManager) (C : FCall) (h : QueueInv M) : QueueInv (C.Apply M) := by
  by_cases hC : C.IsAdmission = true
  · rcases Admission_cases M C hC with h1 | ⟨O, hO, h1⟩
    · rw [h1]; exact h
    · rw [h1]; exact QueueInv_Admit M O h hO
  · cases C with
    | SaveSlot E SlotId bO bS Size OnSaved => exact absurd rfl hC
    | LoadSlot E SlotId OnLoaded => exact absurd rfl hC
    | SerializeStreamingLevel L => exact absurd rfl hC
    | DeserializeStreamingLevel L => exact absurd rfl hC
    | FinishTask T => exact QueueInv_FinishTask M T h
    | Tick Outcome IsDone =>
      obtain ⟨M1, hM1, e1, e2, e3, e4⟩ := Tick_queue M Outcome IsDone
      apply QueueInv_congr M1 _ e1 e2 e3 e4
      rcases hM1 with h1 | ⟨H, B, _, h1⟩
      · rw [h1]; exact h
      · rw [h1]; exact QueueInv_Finish M H B h
    | LoadAllSlotInfos b D => exact QueueInv_congr M _ rfl rfl rfl rfl h

theorem QueueInv_RunFrom (Calls : List FCall) :
    ∀ M : USaveManager, QueueInv M → QueueInv (RunFrom M Calls) := by
  induction Calls with
  | nil => intro M h; exact h
  | cons C Rest ih =>
    intro M h
    exact ih (C.Apply M) (QueueInv_Apply M C h)

theorem QueueInv_Run (Calls : List FCall) : QueueInv (Run Calls) :=
  QueueInv_RunFrom Calls USaveManager.New QueueInv_New

theorem RunFrom_append (M : USaveManager) (A B : List FCall) :
    RunFrom M (A ++ B) = RunFrom (RunFrom M A) B := by
  simp [RunFrom, List.foldl_append]


/-! ## `SaveSlot` and the overwrite flag -/

theorem SaveSlot_eq_Start (E : FEngine) (M : USaveManager) (SlotId : Int)
    (bOverrideIfNeeded bScreenshot : Bool) (Size : FScreenshotSize) (OnSaved : Nat)
    (h1 : CanLoadOrSave E = true) (h2 : IsValidSlot E SlotId = true) :
    SaveSlot E M SlotId bOverrideIfNeeded bScreenshot Size OnSaved =
      (USlotDataTask.IsSucceeded
          (USlotDataTask.Start
            (USlotDataTask.Bind
              (USlotDataTask_Saver.Setup (CreateTask M ETaskType.Saver).1
                (CreateTask M ETaskType.Saver).2 SlotId bOverrideIfNeeded bScreenshot
                Size.Width Size.Height)
              (CreateTask M ETaskType.Saver).2 OnSaved)
            (CreateTask M ETaskType.Saver).2)
          (CreateTask M ETaskType.Saver).2 ||
        USlotDataTask.IsScheduled
          (USlotDataTask.Start
            (USlotDataTask.Bind
              (USlotDataTask_Saver.Setup (CreateTask M ETaskType.Saver).1
                (CreateTask M ETaskType.Saver).2 SlotId bOverrideIfNeeded bScreenshot
                Size.Width Size.Height)
              (CreateTask M ETaskType.Saver).2 OnSaved)
            (CreateTask M ETaskType.Saver).2)
          (CreateTask M ETaskType.Saver).2,
       USlotDataTask.Start
          (USlotDataTask.Bind
            (USlotDataTask_Saver.Setup (CreateTask M ETaskType.Saver).1
              (CreateTask M ETaskType.Saver).2 SlotId bOverrideIfNeeded bScreenshot
              Size.Width Size.Height)
            (CreateTask M ETaskType.Saver).2 OnSaved)
          (CreateTask M ETaskType.Saver).2) := by
  simp only [SaveSlot, h1, h2, Bool.not_true, Bool.false_eq_true, if_false]

theorem SaveSlot_before_Start (M : USaveManager) (SlotId : Int)
    (bOverrideIfNeeded bScreenshot : Bool) (Size : FScreenshotSize) (OnSaved : Nat) :
    USlotDataTask.Bind
        (USlotDataTask_Saver.Setup (CreateTask M ETaskType.Saver).1
          (CreateTask M ETaskType.Saver).2 SlotId bOverrideIfNeeded bScreenshot
          Size.Width Size.Height)
        (CreateTask M ETaskType.Saver).2 OnSaved
      = { M with
          Objects := M.Objects ++ [{ NewObject ETaskType.Saver with
            Slot := SlotId, bOverride := bOverrideIfNeeded, bSaveThumbnail := bScreenshot,
            Width := Size.Width, Height := Size.Height, Delegate := some OnSaved }],
          Tasks := M.Tasks ++ [M.Objects.length] } := by
  simp only [CreateTask, USlotDataTask_Saver.Setup, USlotDataTask.Bind, USaveManager.SetObject,
    USaveManager.Object, TArray.Add, Objects_set_new, Objects_getD_new]

/-- C3 (amended): `SaveSlot` makes no overwrite check before it creates the
task. Whenever `CanLoadOrSave` holds and the slot id is valid, whatever the
overwrite flag and whatever the blob store holds, `SaveSlot` calls
`CreateTask`, `Setup`, `Bind` and then `Start()`: the state on which `Start()`
is called has the new Saver task at the tail of `Tasks`, with the slot id and
the overwrite flag stored in it, and the result of `SaveSlot` is what
`Start()` leaves. In every reachable state with a task already queued, the new
Saver stays queued behind it, scheduled and not running, and `SaveSlot`
returns true. -/
theorem SaveSlot_no_overwrite_check_before_CreateTask (E : FEngine) (M : USaveManager)
    (Calls : List FCall) (SlotId : Int) (bOverrideIfNeeded bScreenshot : Bool)
    (Size : FScreenshotSize) (OnSaved : Nat)
    (h1 : CanLoadOrSave E = true) (h2 : IsValidSlot E SlotId = true) :
    (∃ Before : USaveManager,
      Before = USlotDataTask.Bind
        (USlotDataTask_Saver.Setup (CreateTask M ETaskType.Saver).1
          (CreateTask M ETaskType.Saver).2 SlotId bOverrideIfNeeded bScreenshot
          Size.Width Size.Height)
        (CreateTask M ETaskType.Saver).2 OnSaved ∧
      (SaveSlot E M SlotId bOverrideIfNeeded bScreenshot Size OnSaved).2
        = USlotDataTask.Start Before M.Objects.length ∧
      Before.Tasks = M.Tasks ++ [M.Objects.length] ∧
      (Before.Object M.Objects.length).TaskType = ETaskType.Saver ∧
      (Before.Object M.Objects.length).Slot = SlotId ∧
      (Before.Object M.Objects.length).bOverride = bOverrideIfNeeded ∧
      (Before.Object M.Objects.length).State = ETaskState.NotStarted) ∧
    ((Run Calls).Tasks ≠ [] →
      (SaveSlot E (Run Calls) SlotId bOverrideIfNeeded bScreenshot Size OnSaved).1 = true ∧
      (SaveSlot E (Run Calls) SlotId bOverrideIfNeeded bScreenshot Size OnSaved).2.Tasks
        = (Run Calls).Tasks ++ [(Run Calls).Objects.length] ∧
      (SaveSlot E (Run Calls) SlotId bOverrideIfNeeded bScreenshot Size OnSaved).2.StateOf
        (Run Calls).Objects.length = ETaskState.Scheduled ∧
      (SaveSlot E (Run Calls) SlotId bOverrideIfNeeded bScreenshot Size OnSaved).2.OnStartCalls
        = (Run Calls).OnStartCalls) := by
  constructor
  · refine ⟨_, rfl, ?_, ?_, ?_, ?_, ?_, ?_⟩
    · rw [SaveSlot_eq_Start E M SlotId bOverrideIfNeeded bScreenshot Size OnSaved h1 h2]
      rfl
    · rw [SaveSlot_before_Start]
    · rw [SaveSlot_before_Start]
      simp [USaveManager.Object, Objects_getD_new, NewObject]
    · rw [SaveSlot_before_Start]
      simp [USaveManager.Object, Objects_getD_new]
    · rw [SaveSlot_before_Start]
      simp [USaveManager.Object, Objects_getD_new]
    · rw [SaveSlot_before_Start]
      simp [USaveManager.Object, Objects_getD_new, NewObject]
  · intro hne
    have hQ := QueueInv_Run Calls
    have hA := SaveSlot_eq_Admit E (Run Calls) SlotId bOverrideIfNeeded bScreenshot Size OnSaved
      h1 h2
    have hst : (SaveSlot E (Run Calls) SlotId bOverrideIfNeeded bScreenshot Size OnSaved).2.StateOf
        (Run Calls).Objects.length = ETaskState.Scheduled := by
      rw [hA, Admit_StateOf _ _ rfl hQ.pre.bound]
      simp [hne]
    refine ⟨?_, ?_, hst, ?_⟩
    · have hpair := SaveSlot_eq_Start E (Run Calls) SlotId bOverrideIfNeeded bScreenshot Size
        OnSaved h1 h2
      have h1' : (SaveSlot E (Run Calls) SlotId bOverrideIfNeeded bScreenshot Size OnSaved).1 =
          (USlotDataTask.IsSucceeded
              (SaveSlot E (Run Calls) SlotId bOverrideIfNeeded bScreenshot Size OnSaved).2
              (Run Calls).Objects.length ||
            USlotDataTask.IsScheduled
              (SaveSlot E (Run Calls) SlotId bOverrideIfNeeded bScreenshot Size OnSaved).2
              (Run Calls).Objects.length) := by
        rw [hpair]
        rfl
      rw [h1']
      have hsch : USlotDataTask.IsScheduled
          (SaveSlot E (Run Calls) SlotId bOverrideIfNeeded bScreenshot Size OnSaved).2
          (Run Calls).Objects.length = true := by
        unfold USlotDataTask.IsScheduled
        have : ((SaveSlot E (Run Calls) SlotId bOverrideIfNeeded bScreenshot Size OnSaved).2.Object
            (Run Calls).Objects.length).State = ETaskState.Scheduled := hst
        simp [this]
      rw [hsch, Bool.or_true]
    · rw [hA, Admit_Tasks]
    · rw [hA, Admit_OnStartCalls _ _ rfl hQ.pre.bound]
      simp [hne]

/-- C3 (worked example): after two admitted saves a task is running; a save to
the saved slot 5 without the overwrite flag is then queued behind it and
`SaveSlot` returns true. -/
theorem SaveSlot_no_overwrite_check_before_CreateTask_witness :
    (SaveSlot ExampleEngine (Run ExampleCallsTwo) 5 false false ExampleSize 7).1 = true ∧
    (SaveSlot ExampleEngine (Run ExampleCallsTwo) 5 false false ExampleSize 7).2.Tasks
      = (Run ExampleCallsTwo).Tasks ++ [(Run ExampleCallsTwo).Objects.length] :=
  ⟨((SaveSlot_no_overwrite_check_before_CreateTask ExampleEngine USaveManager.New
      ExampleCallsTwo 5 false false ExampleSize 7 (by decide) (by decide)).2 (by decide)).1,
   ((SaveSlot_no_overwrite_check_before_CreateTask ExampleEngine USaveManager.New
      ExampleCallsTwo 5 false false ExampleSize 7 (by decide) (by decide)).2 (by decide)).2.1⟩

/-- C1: single flight. In every state reached from a new manager by any
sequence of SaveSlot, LoadSlot, SerializeStreamingLevel,
DeserializeStreamingLevel, FinishTask, Tick (and LoadAllSlotInfos) calls, at
most one task of `Tasks` is running, and a running task of `Tasks` is
`Tasks[0]`. -/
theorem single_flight (Calls : List FCall) :
    ((Run Calls).Tasks.filter (fun T => USlotDataTask.IsRunning (Run Calls) T)).length ≤ 1 ∧
    (∀ T ∈ (Run Calls).Tasks, USlotDataTask.IsRunning (Run Calls) T = true →
      (Run Calls).Tasks.head? = some T) := by
  have h := QueueInv_Run Calls
  have hrun : ∀ T, USlotDataTask.IsRunning (Run Calls) T = true ↔
      (Run Calls).StateOf T = ETaskState.Running := by
    intro T
    simp [USlotDataTask.IsRunning, USaveManager.StateOf]
  have htail : ∀ T ∈ (Run Calls).Tasks.tail, USlotDataTask.IsRunning (Run Calls) T = false := by
    intro T hT
    have := h.pre.tail T hT
    cases hr : USlotDataTask.IsRunning (Run Calls) T
    · rfl
    · rw [(hrun T).mp hr] at this; cases this
  refine ⟨?_, ?_⟩
  · cases hL : (Run Calls).Tasks with
    | nil => simp
    | cons A Rest =>
      have hRest : Rest.filter (fun T => USlotDataTask.IsRunning (Run Calls) T) = [] := by
        rw [List.filter_eq_nil_iff]
        intro T hT
        rw [htail T (by simp [hL, hT])]
        simp
      rw [List.filter_cons]
      split <;> simp [hRest]
  · intro T hT hr
    rcases mem_head_or_tail _ T hT with h1 | h1
    · exact h1
    · rw [htail T h1] at hr; cases hr

/-- The head of a non-empty queue is running in every reachable state: the
single-flight invariant is not kept by never running anything. -/
theorem head_is_running (Calls : List FCall) (T : Nat)
    (hT : (Run Calls).Tasks.head? = some T) : USlotDataTask.IsRunning (Run Calls) T = true := by
  have h := (QueueInv_Run Calls).head T hT
  simpa [USlotDataTask.IsRunning, USaveManager.StateOf] using h

/-- C1 (worked example): after two admitted saves, task 0 is queued and
running, and it is the head of the queue. -/
theorem single_flight_witness :
    (Run ExampleCallsTwo).Tasks.head? = some 0 :=
  (single_flight ExampleCallsTwo).2 0 (by decide) (by decide)

/-! ## FIFO order -/

/-- C2: FIFO queue order. `CreateTask` appends the new task at the tail of
`Tasks`, behind every task already queued and without reordering them. In
every reachable state, `FinishTask` applied to the head `T` of `Tasks` leaves
exactly the other tasks, in their order, and calls `Start` on the new head iff
the queue is still non-empty. `Tasks` is always in admission order, so the new
head was admitted after the finished one and before every other waiting task:
tasks become head in admission order. -/
theorem fifo_order (M : USaveManager) (TaskType : ETaskType) (Calls : List FCall) :
    ((CreateTask M TaskType).1.Tasks = M.Tasks ++ [(CreateTask M TaskType).2]) ∧
    (∀ T ∈ (Run Calls).Tasks, T < (CreateTask (Run Calls) TaskType).2) ∧
    (∀ T Rest, (Run Calls).Tasks = T :: Rest →
      (FinishTask (Run Calls) T).Tasks = Rest ∧
      (FinishTask (Run Calls) T).StartCalls = (Run Calls).StartCalls ++ Rest.head?.toList ∧
      (∀ H, (FinishTask (Run Calls) T).Tasks.head? = some H →
        T < H ∧ ∀ X ∈ (FinishTask (Run Calls) T).Tasks.tail, H < X)) ∧
    (Run Calls).Tasks.Pairwise (fun A B => A < B) := by
  have h := QueueInv_Run Calls
  refine ⟨rfl, h.pre.bound, ?_, h.pre.sorted⟩
  intro T Rest hT
  have hs := h.pre.sorted
  rw [hT] at hs
  have hR := Remove_head_of_sorted T Rest hs
  refine ⟨?_, ?_, ?_⟩
  · rw [FinishTask_Tasks, hT, hR]
  · rw [FinishTask_StartCalls, hT, hR]
  · intro H hH
    rw [FinishTask_Tasks, hT, hR] at hH ⊢
    cases Rest with
    | nil => cases hH
    | cons A R2 =>
      have hA : A = H := by simpa using hH
      subst hA
      rw [List.pairwise_cons] at hs
      refine ⟨hs.1 A (by simp), ?_⟩
      intro X hX
      exact (List.pairwise_cons.mp hs.2).1 X hX

/-- The tasks that began to run did so in admission order, each once. -/
theorem started_in_admission_order (Calls : List FCall) :
    (Run Calls).OnStartCalls.Pairwise (fun A B => A < B) :=
  (QueueInv_Run Calls).pre.onStartSorted

/-- C2 (worked example): after two admitted saves the queue is `[0, 1]`;
`FinishTask` on the head 0 leaves `[1]`, calls `Start` on task 1, and the new
head 1 was admitted after task 0. -/
theorem fifo_order_witness :
    (FinishTask (Run ExampleCallsTwo) 0).Tasks = [1] ∧
    (FinishTask (Run ExampleCallsTwo) 0).StartCalls =
      (Run ExampleCallsTwo).StartCalls ++ [1].head?.toList ∧
    0 < 1 :=
  ⟨((fifo_order USaveManager.New ETaskType.Saver ExampleCallsTwo).2.2.1 0 [1] (by decide)).1,
   ((fifo_order USaveManager.New ETaskType.Saver ExampleCallsTwo).2.2.1 0 [1] (by decide)).2.1,
   (((fifo_order USaveManager.New ETaskType.Saver ExampleCallsTwo).2.2.1 0 [1]
      (by decide)).2.2 1 (by decide)).1⟩

/-! ## Number of `Start()` calls per task -/

theorem CountInv_congr (M N : USaveManager) (h2 : N.Tasks = M.Tasks)
    (h3 : N.StartCalls = M.StartCalls) (h : CountInv M) : CountInv N := by
  refine ⟨?_, ?_⟩
  · rw [h2, h3]; exact h.tail
  · rw [h3]; exact h.all

theorem CountInv_New : CountInv USaveManager.New := by
  refine ⟨?_, ?_⟩ <;> simp [USaveManager.New]

theorem CountInv_Admit (M : USaveManager) (O : USlotDataTask) (hQ : QueueInv M)
    (hC : CountInv M) : CountInv (Admit M O) := by
  have hnew : M.StartCalls.count M.Objects.length = 0 := by
    rw [List.count_eq_zero]
    intro hmem
    exact Nat.lt_irrefl _ (hQ.pre.startBound _ hmem)
  have hcount : ∀ T, (Admit M O).StartCalls.count T =
      if T = M.Objects.length then 1 else M.StartCalls.count T := by
    intro T
    rw [Admit_StartCalls, List.count_append]
    by_cases hT : T = M.Objects.length
    · subst hT; simp [hnew]
    · have : ¬ M.Objects.length = T := fun e => hT e.symm
      simp [hT, List.count_singleton, this]
  refine ⟨?_, ?_⟩
  · rw [Admit_Tasks]
    intro T hT
    rw [hcount]
    split
    · exact Nat.le_refl 1
    · rename_i hne
      cases hM : M.Tasks with
      | nil => rw [hM] at hT; simp at hT
      | cons A Rest =>
        rw [hM] at hT
        have hT' : T ∈ Rest ∨ T = M.Objects.length := by simpa using hT
        rcases hT' with h1 | h1
        · exact hC.tail T (by simp [hM, h1])
        · exact absurd h1 hne
  · intro T
    rw [hcount]
    split
    · decide
    · exact hC.all T

theorem CountInv_FinishTask_head (M M2 : USaveManager) (T : Nat) (hQ : QueueInv M)
    (hC : CountInv M) (h2 : M2.Tasks = M.Tasks) (h3 : M2.StartCalls = M.StartCalls)
    (hT : M.Tasks.head? = some T) : CountInv (FinishTask M2 T) := by
  cases hM : M.Tasks with
  | nil => rw [hM] at hT; cases hT
  | cons A Rest =>
    rw [hM] at hT
    have hA : A = T := by simpa using hT
    subst hA
    have hs := hQ.pre.sorted
    rw [hM] at hs
    have hR := Remove_head_of_sorted A Rest hs
    have hs2 := (List.pairwise_cons.mp hs).2
    refine ⟨?_, ?_⟩
    · rw [FinishTask_Tasks, FinishTask_StartCalls, h2, h3, hM, hR]
      intro X hX
      cases hRest : Rest with
      | nil => rw [hRest] at hX; simp at hX
      | cons H R2 =>
        rw [hRest] at hX hs2
        have hX' : X ∈ R2 := by simpa using hX
        have hlt : H < X := (List.pairwise_cons.mp hs2).1 X hX'
        have hne : ¬ H = X := Nat.ne_of_lt hlt
        simp only [List.head?_cons, Option.toList_some, List.count_append, List.count_singleton,
          beq_iff_eq, hne, if_false, Nat.add_zero]
        exact hC.tail X (by simp [hM, hRest, hX'])
    · rw [FinishTask_StartCalls, h2, h3, hM, hR]
      intro X
      cases hRest : Rest with
      | nil => simpa using hC.all X
      | cons H R2 =>
        simp only [List.head?_cons, Option.toList_some, List.count_append, List.count_singleton,
          beq_iff_eq]
        by_cases hHX : H = X
        · subst hHX
          have := hC.tail H (by simp [hM, hRest])
          simp only [if_true]
          omega
        · simp only [hHX, if_false, Nat.add_zero]
          exact hC.all X

theorem CountInv_Apply (M : USaveManager) (C : FCall) (hQ : QueueInv M) (hC : CountInv M)
    (hF : (match C with
      | FCall.FinishTask Task => decide (M.Tasks.head? = some Task)
      | _ => true) = true) : CountInv (C.Apply M) := by
  by_cases hA : C.IsAdmission = true
  · rcases Admission_cases M C hA with h1 | ⟨O, _, h1⟩
    · rw [h1]; exact hC
    · rw [h1]; exact CountInv_Admit M O hQ hC
  · cases C with
    | SaveSlot E SlotId bO bS Size OnSaved => exact absurd rfl hA
    | LoadSlot E SlotId OnLoaded => exact absurd rfl hA
    | SerializeStreamingLevel L => exact absurd rfl hA
    | DeserializeStreamingLevel L => exact absurd rfl hA
    | FinishTask T =>
      have hT : M.Tasks.head? = some T := by simpa using hF
      exact CountInv_FinishTask_head M M T hQ hC rfl rfl hT
    | Tick Outcome IsDone =>
      obtain ⟨M1, hM1, _, e2, e3, _⟩ := Tick_queue M Outcome IsDone
      apply CountInv_congr M1 _ e2 e3
      rcases hM1 with h1 | ⟨H, B, hH, h1⟩
      · rw [h1]; exact hC
      · rw [h1]
        unfold USlotDataTask.Finish
        exact CountInv_FinishTask_head M _ H hQ hC rfl rfl hH
    | LoadAllSlotInfos b D => exact CountInv_congr M _ rfl rfl hC

theorem CountInv_RunFrom (Calls : List FCall) :
    ∀ M : USaveManager, QueueInv M → CountInv M → FinishesHeadOnly M Calls = true →
      CountInv (RunFrom M Calls) := by
  induction Calls with
  | nil => intro M _ hC _; exact hC
  | cons C Rest ih =>
    intro M hQ hC hF
    unfold FinishesHeadOnly at hF
    rw [Bool.and_eq_true] at hF
    exact ih (C.Apply M) (QueueInv_Apply M C hQ) (CountInv_Apply M C hQ hC hF.1) hF.2

theorem FinishTask_eq_Start (M : USaveManager) (T H : Nat) (R : List Nat)
    (hR : TArray.Remove M.Tasks T = H :: R) :
    FinishTask M T = USlotDataTask.Start { M with Tasks := H :: R } H := by
  unfold FinishTask
  simp only [hR]

/-- C10 (as stated, refuted): two saves are admitted one after the other and
then the first task finishes. `Start()` is called on task 1 at its admission,
although the queue is not empty then, and a second time when `FinishTask`
makes it the head: two calls of `Start()` on one task. -/
theorem start_called_twice_counterexample :
    FinishesHeadOnly USaveManager.New ExampleCalls = true ∧
    (Run ExampleCallsTwo).Tasks = [0, 1] ∧
    (Run ExampleCallsTwo).StartCalls = [0, 1] ∧
    (Run ExampleCalls).StartCalls = [0, 1, 1] ∧
    ¬ ((Run ExampleCalls).StartCalls.count 1 ≤ 1) := by
  decide

/-- C10 (amended): over every sequence of admissions, head-task ticks and
`FinishTask` calls on the head task, `Start()` is called at most twice on each
task and takes effect (the task begins to run) at most once. Every accepted
admission calls `Start()` on the new task; when the queue is not empty this
call only schedules the task, which does not begin to run. `FinishTask` on the
head makes the next task begin to run. -/
theorem start_at_most_twice_effective_once (Calls : List FCall)
    (h : FinishesHeadOnly USaveManager.New Calls = true) :
    (∀ T, (Run Calls).StartCalls.count T ≤ 2 ∧ (Run Calls).OnStartCalls.count T ≤ 1) ∧
    (∀ C : FCall, C.IsAdmission = true → (C.Apply (Run Calls)).Tasks ≠ (Run Calls).Tasks →
      (C.Apply (Run Calls)).StartCalls = (Run Calls).StartCalls ++ [(Run Calls).Objects.length] ∧
      ((Run Calls).Tasks ≠ [] →
        (C.Apply (Run Calls)).OnStartCalls = (Run Calls).OnStartCalls ∧
        (C.Apply (Run Calls)).StateOf (Run Calls).Objects.length = ETaskState.Scheduled)) ∧
    (∀ T H R, (Run Calls).Tasks = T :: H :: R →
      (FinishTask (Run Calls) T).StartCalls = (Run Calls).StartCalls ++ [H] ∧
      (FinishTask (Run Calls) T).OnStartCalls = (Run Calls).OnStartCalls ++ [H] ∧
      (FinishTask (Run Calls) T).StateOf H = ETaskState.Running) := by
  have hQ := QueueInv_Run Calls
  have hC := CountInv_RunFrom Calls USaveManager.New QueueInv_New CountInv_New h
  refine ⟨?_, ?_, ?_⟩
  · intro T
    refine ⟨hC.all T, ?_⟩
    have hnd : (Run Calls).OnStartCalls.Nodup :=
      List.Pairwise.imp (fun hlt => Nat.ne_of_lt hlt) hQ.pre.onStartSorted
    exact List.nodup_iff_count_le_one.mp hnd T
  · intro C hA hne
    rcases Admission_cases (Run Calls) C hA with h1 | ⟨O, hO, h1⟩
    · rw [h1] at hne; exact absurd rfl hne
    · rw [h1]
      refine ⟨Admit_StartCalls _ _, ?_⟩
      intro hnil
      rw [Admit_OnStartCalls _ _ hO hQ.pre.bound, Admit_StateOf _ _ hO hQ.pre.bound]
      simp [hnil]
  · intro T H R hT
    have hs := hQ.pre.sorted
    rw [hT] at hs
    have hR := Remove_head_of_sorted T (H :: R) hs
    rw [← hT] at hR
    have hH : (Run Calls).StateOf H = ETaskState.Scheduled :=
      hQ.pre.tail H (by simp [hT])
    have hlt : H < (Run Calls).Objects.length := hQ.pre.bound H (by simp [hT])
    rw [FinishTask_eq_Start _ T H R hR]
    refine ⟨?_, ?_, ?_⟩
    · rw [Start_StartCalls]
    · rw [Start_OnStartCalls]
      have : USaveManager.StateOf { Run Calls with Tasks := H :: R } H = ETaskState.Scheduled := hH
      simp [this]
    · rw [Start_StateOf]
      have : USaveManager.StateOf { Run Calls with Tasks := H :: R } H = ETaskState.Scheduled := hH
      simp [this, hlt]

/-- C10 (worked example): in the run of two saves followed by the finish of
the first task, `Start()` is called twice on task 1 and takes effect once. -/
theorem start_at_most_twice_effective_once_witness :
    (Run ExampleCalls).StartCalls.count 1 ≤ 2 ∧ (Run ExampleCalls).OnStartCalls.count 1 ≤ 1 :=
  (start_at_most_twice_effective_once ExampleCalls (by decide)).1 1

/-! ## Subscribers -/

theorem Subscribers_snoc (Calls : List FSubscriptionCall) (C : FSubscriptionCall) :
    Subscribers (Calls ++ [C]) =
      match C with
      | FSubscriptionCall.Subscribe I => TArray.AddUnique (Subscribers Calls) I
      | FSubscriptionCall.Unsubscribe I => TArray.Remove (Subscribers Calls) I := by
  unfold Subscribers RunSubscriptions
  rw [List.foldl_append]
  cases C <;> rfl

theorem EffectiveStep_fst (Observer : Nat) (Calls : List FSubscriptionCall) :
    ∀ Acc : Nat × Option Nat,
      (Calls.foldl (EffectiveStep Observer) Acc).1 = Acc.1 + Calls.length := by
  induction Calls with
  | nil => intro Acc; rfl
  | cons C Rest ih =>
    intro Acc
    rw [List.foldl_cons, ih]
    cases C <;> simp [EffectiveStep] <;> omega

theorem EffectiveSubscription_snoc (Calls : List FSubscriptionCall) (C : FSubscriptionCall)
    (Observer : Nat) :
    EffectiveSubscription (Calls ++ [C]) Observer =
      match C with
      | FSubscriptionCall.Subscribe I =>
        if I = Observer then
          (match EffectiveSubscription Calls Observer with
           | none => some Calls.length
           | some K => some K)
        else EffectiveSubscription Calls Observer
      | FSubscriptionCall.Unsubscribe I =>
        if I = Observer then none else EffectiveSubscription Calls Observer := by
  unfold EffectiveSubscription
  rw [List.foldl_append]
  have hlen := EffectiveStep_fst Observer Calls (0, none)
  cases C with
  | Subscribe I =>
    simp only [List.foldl_cons, List.foldl_nil, EffectiveStep, hlen, Nat.zero_add]
  | Unsubscribe I =>
    simp only [List.foldl_cons, List.foldl_nil, EffectiveStep]

/-- The subscriber list against its specification: no observer twice, exactly
the observers with an effective subscription, ordered by the position of that
subscription. -/
theorem Subscribers_spec (Calls : List FSubscriptionCall) :
    (Subscribers Calls).Nodup ∧
    (∀ O, O ∈ Subscribers Calls ↔ (EffectiveSubscription Calls O).isSome = true) ∧
    (Subscribers Calls).Pairwise (fun A B => ∀ I J, EffectiveSubscription Calls A = some I →
      EffectiveSubscription Calls B = some J → I < J) ∧
    (∀ O I, EffectiveSubscription Calls O = some I → I < Calls.length) := by
  induction Calls using List.reverseRecOn with
  | nil =>
    refine ⟨?_, ?_, ?_, ?_⟩
    · simp [Subscribers, RunSubscriptions, USaveManager.New]
    · intro O; simp [Subscribers, RunSubscriptions, USaveManager.New, EffectiveSubscription]
    · simp [Subscribers, RunSubscriptions, USaveManager.New]
    · intro O I h; simp [EffectiveSubscription] at h
  | append_singleton Calls C ih =>
    obtain ⟨hnd, hmem, hpw, hbd⟩ := ih
    cases C with
    | Subscribe X =>
      have hE : ∀ O, EffectiveSubscription (Calls ++ [FSubscriptionCall.Subscribe X]) O =
          if X = O then
            (match EffectiveSubscription Calls O with
             | none => some Calls.length
             | some K => some K)
          else EffectiveSubscription Calls O := fun O => EffectiveSubscription_snoc Calls _ O
      have hS : Subscribers (Calls ++ [FSubscriptionCall.Subscribe X]) =
          TArray.AddUnique (Subscribers Calls) X := Subscribers_snoc Calls _
      by_cases hX : X ∈ Subscribers Calls
      · have hsome := (hmem X).mp hX
        obtain ⟨K, hK⟩ := Option.isSome_iff_exists.mp hsome
        have hE' : ∀ O, EffectiveSubscription (Calls ++ [FSubscriptionCall.Subscribe X]) O =
            EffectiveSubscription Calls O := by
          intro O
          rw [hE]
          by_cases hXO : X = O
          · subst hXO; simp [hK]
          · simp [hXO]
        rw [hS]
        unfold TArray.AddUnique
        rw [if_pos hX]
        refine ⟨hnd, ?_, ?_, ?_⟩
        · intro O; rw [hE']; exact hmem O
        · refine hpw.imp ?_
          intro A B h I J hA hB
          rw [hE'] at hA hB
          exact h I J hA hB
        · intro O I h
          rw [hE'] at h
          have := hbd O I h
          simp; omega
      · have hnone : EffectiveSubscription Calls X = none := by
          cases h : EffectiveSubscription Calls X with
          | none => rfl
          | some K =>
            exact absurd ((hmem X).mpr (by simp [h])) hX
        have hEX : EffectiveSubscription (Calls ++ [FSubscriptionCall.Subscribe X]) X =
            some Calls.length := by
          rw [hE]; simp [hnone]
        have hEO : ∀ O, O ≠ X → EffectiveSubscription (Calls ++ [FSubscriptionCall.Subscribe X]) O =
            EffectiveSubscription Calls O := by
          intro O hO
          rw [hE]
          have : ¬ X = O := fun e => hO e.symm
          simp [this]
        rw [hS]
        unfold TArray.AddUnique TArray.Add
        rw [if_neg hX]
        refine ⟨?_, ?_, ?_, ?_⟩
        · rw [List.nodup_append]
          refine ⟨hnd, List.nodup_singleton _, ?_⟩
          intro A hA hA'
          have : A = X := by simpa using hA'
          rw [this] at hA
          exact hX hA
        · intro O
          by_cases hO : O = X
          · subst hO; simp [hEX]
          · rw [hEO O hO]
            simp [hO, hmem O]
        · rw [List.pairwise_append]
          refine ⟨?_, List.pairwise_singleton _ _, ?_⟩
          · refine hpw.imp_of_mem ?_
            intro A B hA hB h I J hIA hJB
            have hAX : A ≠ X := fun e => hX (e ▸ hA)
            have hBX : B ≠ X := fun e => hX (e ▸ hB)
            rw [hEO A hAX] at hIA
            rw [hEO B hBX] at hJB
            exact h I J hIA hJB
          · intro A hA B hB I J hIA hJB
            have hBX : B = X := by simpa using hB
            have hAX : A ≠ X := fun e => hX (e ▸ hA)
            rw [hEO A hAX] at hIA
            rw [hBX, hEX] at hJB
            have := hbd A I hIA
            have hJ : Calls.length = J := by simpa using hJB
            omega
        · intro O I h
          by_cases hO : O = X
          · rw [hO, hEX] at h
            have : Calls.length = I := by simpa using h
            simp; omega
          · rw [hEO O hO] at h
            have := hbd O I h
            simp; omega
    | Unsubscribe X =>
      have hE : ∀ O, EffectiveSubscription (Calls ++ [FSubscriptionCall.Unsubscribe X]) O =
          if X = O then none else EffectiveSubscription Calls O :=
        fun O => EffectiveSubscription_snoc Calls _ O
      have hS : Subscribers (Calls ++ [FSubscriptionCall.Unsubscribe X]) =
          TArray.Remove (Subscribers Calls) X := Subscribers_snoc Calls _
      rw [hS]
      unfold TArray.Remove
      have hmemF : ∀ O, O ∈ (Subscribers Calls).filter (fun Y => decide (Y ≠ X)) ↔
          (O ∈ Subscribers Calls ∧ O ≠ X) := by
        intro O
        rw [List.mem_filter]
        simp
      refine ⟨hnd.filter _, ?_, ?_, ?_⟩
      · intro O
        rw [hmemF, hE]
        by_cases hO : X = O
        · subst hO; simp
        · have : O ≠ X := fun e => hO e.symm
          simp [hO, this, hmem O]
      · refine (hpw.sublist (List.filter_sublist _)).imp_of_mem ?_
        intro A B hA hB h I J hIA hJB
        have hAX : ¬ X = A := fun e => ((hmemF A).mp hA).2 e.symm
        have hBX : ¬ X = B := fun e => ((hmemF B).mp hB).2 e.symm
        rw [hE, if_neg hAX] at hIA
        rw [hE, if_neg hBX] at hJB
        exact h I J hIA hJB
      · intro O I h
        rw [hE] at h
        by_cases hO : X = O
        · simp [hO] at h
        · rw [if_neg hO] at h
          have := hbd O I h
          simp; omega

theorem Iterate_eq_filter_map (World : Nat → FObserver) (Handler : Nat → FNotify)
    (M : USaveManager) :
    IterateSubscribedInterfaces M World (ExecuteIfImplemented World Handler) =
      (M.SubscribedInterfaces.filter (Capable World)).map Handler := by
  unfold IterateSubscribedInterfaces
  induction M.SubscribedInterfaces with
  | nil => rfl
  | cons A Rest ih =>
    cases hv : (World A).bValid
    · rw [List.filter_cons_of_neg (by simp [hv]), ih,
        List.filter_cons_of_neg (by simp [Capable, hv])]
    · rw [List.filter_cons_of_pos (by simp [hv]), List.map_cons, List.flatten_cons, ih]
      cases hn : (World A).bNative
      · cases hi : (World A).bImplements
        · rw [List.filter_cons_of_neg (by simp [Capable, hv, hn, hi])]
          simp [ExecuteIfImplemented, hn, hi]
        · rw [List.filter_cons_of_pos (by simp [Capable, hv, hn, hi])]
          simp [ExecuteIfImplemented, hn, hi]
      · rw [List.filter_cons_of_pos (by simp [Capable, hv, hn])]
        simp [ExecuteIfImplemented, hn]

theorem count_filter_map_handler (World : Nat → FObserver) (Handler : Nat → FNotify)
    (hinj : Function.Injective Handler) (L : List Nat) (hnd : L.Nodup) (O : Nat) :
    ((L.filter (Capable World)).map Handler).count (Handler O) =
      if O ∈ L ∧ Capable World O = true then 1 else 0 := by
  rw [List.count_map_of_injective _ Handler hinj]
  by_cases h : O ∈ L ∧ Capable World O = true
  · rw [if_pos h]
    exact List.count_eq_one_of_mem (hnd.filter _) (List.mem_filter.mpr h)
  · rw [if_neg h]
    rw [List.count_eq_zero]
    intro hmem
    exact h (List.mem_filter.mp hmem)

theorem OnSaveBegan_injective : Function.Injective FNotify.Execute_OnSaveBegan := by
  intro A B h; cases h; rfl

theorem OnLoadBegan_injective : Function.Injective FNotify.Execute_OnLoadBegan := by
  intro A B h; cases h; rfl

theorem OnSaveFinished_injective (bError : Bool) :
    Function.Injective (fun O => FNotify.Execute_OnSaveFinished O bError) := by
  intro A B h; cases h; rfl

theorem OnLoadFinished_injective (bError : Bool) :
    Function.Injective (fun O => FNotify.Execute_OnLoadFinished O bError) := by
  intro A B h; cases h; rfl

/-- C8: subscriber fan-out. After any sequence of `SubscribeForEvents` and
`UnsubscribeFromEvents` calls, `SubscribedInterfaces` holds no observer twice,
holds exactly the currently subscribed observers, and lists them in the order
of their first still-effective subscription. Each of the four lifecycle events
runs through this list once, in order: it calls the handler exactly once for
every subscribed observer whose object is valid and implements the interface,
and for no one else; when all subscribed observers are such objects, the calls
are the subscriber list itself. -/
theorem subscriber_fan_out (Calls : List FSubscriptionCall) (World : Nat → FObserver)
    (bError : Bool) :
    (RunSubscriptions USaveManager.New Calls).SubscribedInterfaces.Nodup ∧
    (∀ O, O ∈ (RunSubscriptions USaveManager.New Calls).SubscribedInterfaces ↔
      (EffectiveSubscription Calls O).isSome = true) ∧
    (RunSubscriptions USaveManager.New Calls).SubscribedInterfaces.Pairwise
      (fun A B => ∀ I J, EffectiveSubscription Calls A = some I →
        EffectiveSubscription Calls B = some J → I < J) ∧
    OnSaveBegan (RunSubscriptions USaveManager.New Calls) World =
      ((Subscribers Calls).filter (Capable World)).map FNotify.Execute_OnSaveBegan ∧
    OnSaveFinished (RunSubscriptions USaveManager.New Calls) World bError =
      ((Subscribers Calls).filter (Capable World)).map
          (fun O => FNotify.Execute_OnSaveFinished O bError)
        ++ (if !bError then [FNotify.OnGameSaved] else []) ∧
    OnLoadBegan (RunSubscriptions USaveManager.New Calls) World =
      ((Subscribers Calls).filter (Capable World)).map FNotify.Execute_OnLoadBegan ∧
    OnLoadFinished (RunSubscriptions USaveManager.New Calls) World bError =
      ((Subscribers Calls).filter (Capable World)).map
          (fun O => FNotify.Execute_OnLoadFinished O bError)
        ++ (if !bError then [FNotify.OnGameLoaded] else []) ∧
    (∀ O,
      (OnSaveBegan (RunSubscriptions USaveManager.New Calls) World).count
          (FNotify.Execute_OnSaveBegan O)
        = (if O ∈ Subscribers Calls ∧ Capable World O = true then 1 else 0) ∧
      (OnSaveFinished (RunSubscriptions USaveManager.New Calls) World bError).count
          (FNotify.Execute_OnSaveFinished O bError)
        = (if O ∈ Subscribers Calls ∧ Capable World O = true then 1 else 0) ∧
      (OnLoadBegan (RunSubscriptions USaveManager.New Calls) World).count
          (FNotify.Execute_OnLoadBegan O)
        = (if O ∈ Subscribers Calls ∧ Capable World O = true then 1 else 0) ∧
      (OnLoadFinished (RunSubscriptions USaveManager.New Calls) World bError).count
          (FNotify.Execute_OnLoadFinished O bError)
        = (if O ∈ Subscribers Calls ∧ Capable World O = true then 1 else 0)) ∧
    ((∀ O ∈ Subscribers Calls, Capable World O = true) →
      OnSaveBegan (RunSubscriptions USaveManager.New Calls) World =
        (Subscribers Calls).map FNotify.Execute_OnSaveBegan ∧
      OnSaveFinished (RunSubscriptions USaveManager.New Calls) World bError =
        (Subscribers Calls).map (fun O => FNotify.Execute_OnSaveFinished O bError)
          ++ (if !bError then [FNotify.OnGameSaved] else []) ∧
      OnLoadBegan (RunSubscriptions USaveManager.New Calls) World =
        (Subscribers Calls).map FNotify.Execute_OnLoadBegan ∧
      OnLoadFinished (RunSubscriptions USaveManager.New Calls) World bError =
        (Subscribers Calls).map (fun O => FNotify.Execute_OnLoadFinished O bError)
          ++ (if !bError then [FNotify.OnGameLoaded] else [])) := by
  obtain ⟨hnd, hmem, hpw, _⟩ := Subscribers_spec Calls
  have e1 : OnSaveBegan (RunSubscriptions USaveManager.New Calls) World =
      ((Subscribers Calls).filter (Capable World)).map FNotify.Execute_OnSaveBegan :=
    Iterate_eq_filter_map World _ _
  have e2 : OnSaveFinished (RunSubscriptions USaveManager.New Calls) World bError =
      ((Subscribers Calls).filter (Capable World)).map
          (fun O => FNotify.Execute_OnSaveFinished O bError)
        ++ (if !bError then [FNotify.OnGameSaved] else []) := by
    unfold OnSaveFinished
    rw [Iterate_eq_filter_map]
    rfl
  have e3 : OnLoadBegan (RunSubscriptions USaveManager.New Calls) World =
      ((Subscribers Calls).filter (Capable World)).map FNotify.Execute_OnLoadBegan :=
    Iterate_eq_filter_map World _ _
  have e4 : OnLoadFinished (RunSubscriptions USaveManager.New Calls) World bError =
      ((Subscribers Calls).filter (Capable World)).map
          (fun O => FNotify.Execute_OnLoadFinished O bError)
        ++ (if !bError then [FNotify.OnGameLoaded] else []) := by
    unfold OnLoadFinished
    rw [Iterate_eq_filter_map]
    rfl
  refine ⟨hnd, hmem, hpw, e1, e2, e3, e4, ?_, ?_⟩
  · intro O
    refine ⟨?_, ?_, ?_, ?_⟩
    · rw [e1]
      exact count_filter_map_handler World _ OnSaveBegan_injective _ hnd O
    · rw [e2, List.count_append,
        count_filter_map_handler World _ (OnSaveFinished_injective bError) _ hnd O]
      cases bError <;> simp
    · rw [e3]
      exact count_filter_map_handler World _ OnLoadBegan_injective _ hnd O
    · rw [e4, List.count_append,
        count_filter_map_handler World _ (OnLoadFinished_injective bError) _ hnd O]
      cases bError <;> simp
  · intro hall
    have hf : (Subscribers Calls).filter (Capable World) = Subscribers Calls :=
      List.filter_eq_self.mpr hall
    rw [e1, e2, e3, e4, hf]
    exact ⟨rfl, rfl, rfl, rfl⟩

/-- C8 (worked example): observer 1 subscribes, observer 2 subscribes twice,
observer 1 unsubscribes and subscribes again; a save then notifies observer 2
and then observer 1, once each. -/
theorem subscriber_fan_out_witness :
    OnSaveBegan (RunSubscriptions USaveManager.New ExampleSubscriptions) ExampleWorld =
      [FNotify.Execute_OnSaveBegan 2, FNotify.Execute_OnSaveBegan 1] :=
  ((subscriber_fan_out ExampleSubscriptions ExampleWorld false).2.2.2.2.2.2.2.2
    (by decide)).1

/-! ## Polling of the enumeration jobs -/

theorem swap_tail_perm {α : Type} (D : List α) :
    (match D.getLast? with
     | none => []
     | some Last => Last :: D.dropLast).Perm D := by
  by_cases hD : D = []
  · subst hD; simp
  · rw [List.getLast?_eq_getLast D hD]
    simp only []
    have h := List.dropLast_append_getLast hD
    calc (D.getLast hD :: D.dropLast).Perm (D.dropLast ++ [D.getLast hD]) :=
          (List.perm_append_singleton _ _).symm
      _ = D := h

theorem swap_tail_length {α : Type} (D : List α) :
    (match D.getLast? with
     | none => []
     | some Last => Last :: D.dropLast).length = D.length :=
  (swap_tail_perm D).length_eq

theorem RemoveAtSwap_length {α : Type} (A : List α) (I : Nat) (h : I < A.length) :
    (TArray.RemoveAtSwap A I).length + 1 = A.length := by
  unfold TArray.RemoveAtSwap
  rw [List.length_append, swap_tail_length, List.length_take, List.length_drop]
  omega

theorem RemoveAtSwap_take {α : Type} (A : List α) (I : Nat) (h : I < A.length) :
    (TArray.RemoveAtSwap A I).take I = A.take I := by
  unfold TArray.RemoveAtSwap
  rw [List.take_append_of_le_length (by rw [List.length_take]; omega)]
  rw [List.take_take]
  simp

theorem RemoveAtSwap_drop {α : Type} (A : List α) (I : Nat) (h : I < A.length) :
    ((TArray.RemoveAtSwap A I).drop I).Perm (A.drop (I + 1)) := by
  unfold TArray.RemoveAtSwap
  have hlen : (A.take I).length = I := by rw [List.length_take]; omega
  rw [List.drop_append_of_le_length (by omega)]
  rw [List.drop_of_length_le (by omega)]
  simpa using swap_tail_perm (A.drop (I + 1))

/-- The loop of `RemoveAllSwap` gives the same result with any larger amount
of fuel: it ends because `ItemIndex` reaches `Num()`. -/
theorem RemoveAllSwapLoop_fuel {α σ : Type} (Predicate : α → σ → Bool × σ) (K : Nat) :
    ∀ (Fuel I : Nat) (A : List α) (S : σ), A.length ≤ I + Fuel →
      TArray.RemoveAllSwapLoop Predicate (Fuel + K) I A S =
        TArray.RemoveAllSwapLoop Predicate Fuel I A S := by
  intro Fuel
  induction Fuel with
  | zero =>
    intro I A S h
    have hnone : A.get? I = none := by
      rw [List.get?_eq_none]; omega
    cases K with
    | zero => rfl
    | succ K =>
      show TArray.RemoveAllSwapLoop Predicate (0 + K + 1) I A S = _
      unfold TArray.RemoveAllSwapLoop
      rw [hnone]
  | succ Fuel ih =>
    intro I A S h
    have e : Fuel + 1 + K = (Fuel + K) + 1 := by omega
    rw [e]
    unfold TArray.RemoveAllSwapLoop
    cases hg : A.get? I with
    | none => rfl
    | some Item =>
      have hI : I < A.length := by
        by_contra hc
        rw [List.get?_eq_none.mpr (by omega)] at hg
        cases hg
      simp only []
      split
      · apply ih
        have := RemoveAtSwap_length A I hI
        omega
      · apply ih
        omega

/-- What the loop of `RemoveAllSwap` does with the lambda of `Tick`: the
elements before `ItemIndex` stay in place, the not yet examined jobs that are
not done are kept, those that are done are removed, and the delegate is called
once for each of the removed jobs. -/
theorem RemoveAllSwapLoop_TickPredicate (IsDone : FLoadAllSlotInfosTask → Bool) :
    ∀ (Fuel I : Nat) (A Log : List FLoadAllSlotInfosTask), A.length ≤ I + Fuel →
      ∃ Kept Called : List FLoadAllSlotInfosTask,
        TArray.RemoveAllSwapLoop (TickPredicate IsDone) Fuel I A Log
          = (A.take I ++ Kept, Log ++ Called) ∧
        Kept.Perm ((A.drop I).filter (fun J => !IsDone J)) ∧
        Called.Perm ((A.drop I).filter IsDone) := by
  intro Fuel
  induction Fuel with
  | zero =>
    intro I A Log h
    refine ⟨[], [], ?_, ?_, ?_⟩
    · unfold TArray.RemoveAllSwapLoop
      rw [List.take_of_length_le (by omega)]
      simp
    · rw [List.drop_of_length_le (by omega)]; simp
    · rw [List.drop_of_length_le (by omega)]; simp
  | succ Fuel ih =>
    intro I A Log h
    unfold TArray.RemoveAllSwapLoop
    cases hg : A.get? I with
    | none =>
      have hI : A.length ≤ I := List.get?_eq_none.mp hg
      refine ⟨[], [], ?_, ?_, ?_⟩
      · rw [List.take_of_length_le hI]
        simp
      · rw [List.drop_of_length_le hI]; simp
      · rw [List.drop_of_length_le hI]; simp
    | some Item =>
      have hI : I < A.length := by
        by_contra hc
        rw [List.get?_eq_none.mpr (by omega)] at hg
        cases hg
      have hItem : A[I] = Item := by
        rw [List.get?_eq_getElem?, List.getElem?_eq_getElem hI] at hg
        exact Option.some.inj hg
      have hdrop : A.drop I = Item :: A.drop (I + 1) := by
        rw [← hItem]; exact List.drop_eq_getElem_cons hI
      simp only []
      cases hd : IsDone Item with
      | true =>
        have hlen := RemoveAtSwap_length A I hI
        obtain ⟨Kept, Called, e, hK, hC⟩ :=
          ih I (TArray.RemoveAtSwap A I) (Log ++ [Item]) (by omega)
        refine ⟨Kept, Item :: Called, ?_, ?_, ?_⟩
        · simp only [TickPredicate, hd, if_true]
          rw [e, RemoveAtSwap_take A I hI]
          simp
        · rw [hdrop, List.filter_cons_of_neg (by simp [hd])]
          exact hK.trans ((RemoveAtSwap_drop A I hI).filter _)
        · rw [hdrop, List.filter_cons_of_pos (by simp [hd])]
          exact List.Perm.cons _ (hC.trans ((RemoveAtSwap_drop A I hI).filter _))
      | false =>
        obtain ⟨Kept, Called, e, hK, hC⟩ := ih (I + 1) A Log (by omega)
        refine ⟨Item :: Kept, Called, ?_, ?_, ?_⟩
        · simp only [TickPredicate, hd, Bool.false_eq_true, if_false]
          have hg2 : A[I]? = some Item := by
            rw [← List.get?_eq_getElem?]; exact hg
          rw [e, List.take_succ, hg2]
          simp
        · rw [hdrop, List.filter_cons_of_pos (by simp [hd])]
          exact List.Perm.cons _ hK
        · rw [hdrop, List.filter_cons_of_neg (by simp [hd])]
          exact hC

theorem RemoveAllSwap_TickPredicate (IsDone : FLoadAllSlotInfosTask → Bool)
    (A Log : List FLoadAllSlotInfosTask) :
    ∃ Called : List FLoadAllSlotInfosTask,
      (TArray.RemoveAllSwap (TickPredicate IsDone) A Log).2 = Log ++ Called ∧
      Called.Perm (A.filter IsDone) ∧
      (TArray.RemoveAllSwap (TickPredicate IsDone) A Log).1.Perm
        (A.filter (fun J => !IsDone J)) := by
  obtain ⟨Kept, Called, e, hK, hC⟩ :=
    RemoveAllSwapLoop_TickPredicate IsDone A.length 0 A Log (by omega)
  refine ⟨Called, ?_, ?_, ?_⟩
  · unfold TArray.RemoveAllSwap; rw [e]
  · simpa using hC
  · unfold TArray.RemoveAllSwap; rw [e]
    simpa using hK

theorem Finish_LoadInfosTasks (M : USaveManager) (T : Nat) (bSuccess : Bool) :
    (USlotDataTask.Finish M T bSuccess).LoadInfosTasks = M.LoadInfosTasks ∧
    (USlotDataTask.Finish M T bSuccess).DelegateCalls = M.DelegateCalls ∧
    (USlotDataTask.Finish M T bSuccess).NumAsyncTasks = M.NumAsyncTasks := by
  unfold USlotDataTask.Finish
  exact FinishTask_LoadInfosTasks _ _

/-- One `Tick` on the enumeration jobs: the delegates called are, up to order,
the pending jobs that are done, and the jobs still pending afterwards are, up
to order, the pending jobs that are not done. -/
theorem Tick_LoadInfosTasks (M : USaveManager) (Outcome : Option Bool)
    (IsDone : FLoadAllSlotInfosTask → Bool) :
    ∃ Called : List FLoadAllSlotInfosTask,
      (Tick M Outcome IsDone).DelegateCalls = M.DelegateCalls ++ Called ∧
      Called.Perm (M.LoadInfosTasks.filter IsDone) ∧
      (Tick M Outcome IsDone).LoadInfosTasks.Perm
        (M.LoadInfosTasks.filter (fun J => !IsDone J)) ∧
      (Tick M Outcome IsDone).NumAsyncTasks = M.NumAsyncTasks := by
  have key : ∀ M1 : USaveManager, M1.LoadInfosTasks = M.LoadInfosTasks →
      M1.DelegateCalls = M.DelegateCalls → M1.NumAsyncTasks = M.NumAsyncTasks →
      ∃ Called : List FLoadAllSlotInfosTask,
        (TArray.RemoveAllSwap (TickPredicate IsDone) M1.LoadInfosTasks M1.DelegateCalls).2
          = M.DelegateCalls ++ Called ∧
        Called.Perm (M.LoadInfosTasks.filter IsDone) ∧
        (TArray.RemoveAllSwap (TickPredicate IsDone) M1.LoadInfosTasks M1.DelegateCalls).1.Perm
          (M.LoadInfosTasks.filter (fun J => !IsDone J)) ∧
        M1.NumAsyncTasks = M.NumAsyncTasks := by
    intro M1 e1 e2 e3
    obtain ⟨Called, h1, h2, h3⟩ :=
      RemoveAllSwap_TickPredicate IsDone M1.LoadInfosTasks M1.DelegateCalls
    rw [e1, e2] at h1 h3
    rw [e1] at h2
    rw [e1, e2]
    exact ⟨Called, h1, h2, h3, e3⟩
  unfold Tick
  cases hT : M.Tasks with
  | nil => exact key M rfl rfl rfl
  | cons H R =>
    simp only []
    cases hR : USlotDataTask.IsRunning M H with
    | false => exact key M rfl rfl rfl
    | true =>
      cases Outcome with
      | none => exact key M rfl rfl rfl
      | some B =>
        have hF := Finish_LoadInfosTasks M H B
        exact key (USlotDataTask.Finish M H B) hF.1 hF.2.1 hF.2.2

theorem EnumInv_congr (M N : USaveManager) (h1 : N.LoadInfosTasks = M.LoadInfosTasks)
    (h2 : N.DelegateCalls = M.DelegateCalls) (h3 : N.NumAsyncTasks = M.NumAsyncTasks)
    (h : EnumInv M) : EnumInv N := by
  refine ⟨?_, ?_, ?_, ?_, ?_⟩
  · rw [h1]; exact h.nodupTasks
  · rw [h1, h3]; exact h.boundTasks
  · rw [h2, h3]; exact h.boundCalls
  · rw [h2]; exact h.nodupCalls
  · rw [h1, h2]; exact h.disjoint

theorem EnumInv_New : EnumInv USaveManager.New := by
  refine ⟨?_, ?_, ?_, ?_, ?_⟩ <;> simp [USaveManager.New]

theorem EnumInv_LoadAllSlotInfos (M : USaveManager) (bSortByRecent : Bool) (Delegate : Nat)
    (h : EnumInv M) : EnumInv (LoadAllSlotInfos M bSortByRecent Delegate) := by
  unfold LoadAllSlotInfos TArray.Add
  refine ⟨?_, ?_, ?_, ?_, ?_⟩
  · show (M.LoadInfosTasks ++ [_]).Nodup
    rw [List.nodup_append]
    refine ⟨h.nodupTasks, List.nodup_singleton _, ?_⟩
    intro J hJ hJ'
    have hJe := List.mem_singleton.mp hJ'
    have := h.boundTasks J hJ
    rw [hJe] at this
    exact Nat.lt_irrefl _ this
  · intro J hJ
    have hJ' : J ∈ M.LoadInfosTasks ++ [_] := hJ
    show J.Address < M.NumAsyncTasks + 1
    rcases List.mem_append.mp hJ' with h1 | h1
    · exact Nat.lt_succ_of_lt (h.boundTasks J h1)
    · have hJe := List.mem_singleton.mp h1
      rw [hJe]; exact Nat.lt_succ_self _
  · intro J hJ
    show J.Address < M.NumAsyncTasks + 1
    exact Nat.lt_succ_of_lt (h.boundCalls J hJ)
  · exact h.nodupCalls
  · intro J hJ hJ'
    have hJ2 : J ∈ M.LoadInfosTasks ++ [_] := hJ'
    have hJ1 : J ∈ M.DelegateCalls := hJ
    rcases List.mem_append.mp hJ2 with h1 | h1
    · exact h.disjoint J hJ1 h1
    · have hJe := List.mem_singleton.mp h1
      have := h.boundCalls J hJ1
      rw [hJe] at this
      exact Nat.lt_irrefl _ this

theorem EnumInv_Tick (M : USaveManager) (Outcome : Option Bool)
    (IsDone : FLoadAllSlotInfosTask → Bool) (h : EnumInv M) :
    EnumInv (Tick M Outcome IsDone) := by
  obtain ⟨Called, e1, hC, hK, e3⟩ := Tick_LoadInfosTasks M Outcome IsDone
  have hCmem : ∀ J, J ∈ Called ↔ (J ∈ M.LoadInfosTasks ∧ IsDone J = true) := by
    intro J; rw [hC.mem_iff, List.mem_filter]
  have hKmem : ∀ J, J ∈ (Tick M Outcome IsDone).LoadInfosTasks ↔
      (J ∈ M.LoadInfosTasks ∧ IsDone J = false) := by
    intro J; rw [hK.mem_iff, List.mem_filter]; simp
  refine ⟨?_, ?_, ?_, ?_, ?_⟩
  · exact hK.nodup_iff.mpr (h.nodupTasks.filter _)
  · intro J hJ
    rw [e3]
    exact h.boundTasks J ((hKmem J).mp hJ).1
  · intro J hJ
    rw [e3]
    rw [e1] at hJ
    rcases List.mem_append.mp hJ with h1 | h1
    · exact h.boundCalls J h1
    · exact h.boundTasks J ((hCmem J).mp h1).1
  · rw [e1, List.nodup_append]
    refine ⟨h.nodupCalls, hC.nodup_iff.mpr (h.nodupTasks.filter _), ?_⟩
    intro J hJ hJ'
    exact h.disjoint J hJ ((hCmem J).mp hJ').1
  · intro J hJ hJ'
    rw [e1] at hJ
    have hK' := (hKmem J).mp hJ'
    rcases List.mem_append.mp hJ with h1 | h1
    · exact h.disjoint J h1 hK'.1
    · have := ((hCmem J).mp h1).2
      rw [hK'.2] at this
      cases this

theorem Apply_LoadInfosTasks_frame (M : USaveManager) (C : FCall)
    (h : C.IsAdmission = true ∨ ∃ T, C = FCall.FinishTask T) :
    (C.Apply M).LoadInfosTasks = M.LoadInfosTasks ∧
    (C.Apply M).DelegateCalls = M.DelegateCalls ∧
    (C.Apply M).NumAsyncTasks = M.NumAsyncTasks := by
  rcases h with hA | ⟨T, hT⟩
  · rcases Admission_cases M C hA with h1 | ⟨O, _, h1⟩
    · rw [h1]; exact ⟨rfl, rfl, rfl⟩
    · rw [h1]; exact Admit_LoadInfosTasks M O
  · rw [hT]; exact FinishTask_LoadInfosTasks M T

theorem FCall_cases (C : FCall) :
    (C.IsAdmission = true ∨ ∃ T, C = FCall.FinishTask T) ∨
    (∃ Outcome IsDone, C = FCall.Tick Outcome IsDone) ∨
    (∃ B D, C = FCall.LoadAllSlotInfos B D) := by
  cases C with
  | SaveSlot E SlotId bO bS Size OnSaved => exact Or.inl (Or.inl rfl)
  | LoadSlot E SlotId OnLoaded => exact Or.inl (Or.inl rfl)
  | SerializeStreamingLevel L => exact Or.inl (Or.inl rfl)
  | DeserializeStreamingLevel L => exact Or.inl (Or.inl rfl)
  | FinishTask T => exact Or.inl (Or.inr ⟨T, rfl⟩)
  | Tick Outcome IsDone => exact Or.inr (Or.inl ⟨Outcome, IsDone, rfl⟩)
  | LoadAllSlotInfos B D => exact Or.inr (Or.inr ⟨B, D, rfl⟩)

theorem EnumInv_Apply (M : USaveManager) (C : FCall) (h : EnumInv M) : EnumInv (C.Apply M) := by
  rcases FCall_cases C with hF | ⟨Outcome, IsDone, hC⟩ | ⟨B, D, hC⟩
  · have hf := Apply_LoadInfosTasks_frame M C hF
    exact EnumInv_congr M _ hf.1 hf.2.1 hf.2.2 h
  · rw [hC]; exact EnumInv_Tick M Outcome IsDone h
  · rw [hC]; exact EnumInv_LoadAllSlotInfos M B D h

theorem DelegateCalls_Apply_mono (M : USaveManager) (C : FCall) (J : FLoadAllSlotInfosTask)
    (hJ : J ∈ M.DelegateCalls) : J ∈ (C.Apply M).DelegateCalls := by
  rcases FCall_cases C with hF | ⟨Outcome, IsDone, hC⟩ | ⟨B, D, hC⟩
  · rw [(Apply_LoadInfosTasks_frame M C hF).2.1]; exact hJ
  · rw [hC]
    obtain ⟨Called, e1, _⟩ := Tick_LoadInfosTasks M Outcome IsDone
    show J ∈ (Tick M Outcome IsDone).DelegateCalls
    rw [e1]
    exact List.mem_append_left _ hJ
  · rw [hC]; exact hJ

theorem EnumInv_RunFrom (Calls : List FCall) :
    ∀ M : USaveManager, EnumInv M → EnumInv (RunFrom M Calls) := by
  induction Calls with
  | nil => intro M h; exact h
  | cons C Rest ih =>
    intro M h
    exact ih (C.Apply M) (EnumInv_Apply M C h)

theorem DelegateCalls_RunFrom_mono (Calls : List FCall) :
    ∀ (M : USaveManager) (J : FLoadAllSlotInfosTask), J ∈ M.DelegateCalls →
      J ∈ (RunFrom M Calls).DelegateCalls := by
  induction Calls with
  | nil => intro M J h; exact h
  | cons C Rest ih =>
    intro M J h
    exact ih (C.Apply M) J (DelegateCalls_Apply_mono M C J h)

/-- C9: enumerator polling delivers exactly once. For every manager state, one
`Tick` calls the completion delegate once for each pending job that is done
(the calls made are, up to order, the done jobs of `LoadInfosTasks`) and
removes exactly those jobs (the jobs left are, up to order, the jobs that are
not done, for which no call is made). Hence, over any sequence of calls on a
new manager, the delegate of a job is called at most once, and a pending job
that a `Tick` finds done has its delegate called exactly once, then and in
every later state. -/
theorem enumerator_polling_exactly_once (M : USaveManager) (Outcome : Option Bool)
    (IsDone : FLoadAllSlotInfosTask → Bool) (Calls More : List FCall)
    (J : FLoadAllSlotInfosTask) :
    (∃ Called : List FLoadAllSlotInfosTask,
      (Tick M Outcome IsDone).DelegateCalls = M.DelegateCalls ++ Called ∧
      Called.Perm (M.LoadInfosTasks.filter IsDone) ∧
      (Tick M Outcome IsDone).LoadInfosTasks.Perm
        (M.LoadInfosTasks.filter (fun K => !IsDone K))) ∧
    (Run Calls).DelegateCalls.count J ≤ 1 ∧
    (J ∈ (Run Calls).LoadInfosTasks → IsDone J = true →
      (Run (Calls ++ FCall.Tick Outcome IsDone :: More)).DelegateCalls.count J = 1) := by
  refine ⟨?_, ?_, ?_⟩
  · obtain ⟨Called, e1, hC, hK, _⟩ := Tick_LoadInfosTasks M Outcome IsDone
    exact ⟨Called, e1, hC, hK⟩
  · exact List.nodup_iff_count_le_one.mp
      (EnumInv_RunFrom Calls USaveManager.New EnumInv_New).nodupCalls J
  · intro hJ hD
    have hInv := EnumInv_RunFrom (Calls ++ FCall.Tick Outcome IsDone :: More)
      USaveManager.New EnumInv_New
    apply List.count_eq_one_of_mem hInv.nodupCalls
    rw [RunFrom_append]
    show J ∈ (RunFrom (Tick (RunFrom USaveManager.New Calls) Outcome IsDone) More).DelegateCalls
    apply DelegateCalls_RunFrom_mono
    obtain ⟨Called, e1, hC, _⟩ := Tick_LoadInfosTasks (RunFrom USaveManager.New Calls) Outcome IsDone
    rw [e1]
    apply List.mem_append_right
    rw [hC.mem_iff, List.mem_filter]
    exact ⟨hJ, hD⟩

/-- C9 (worked example): two enumerations are pending and a `Tick` finds the
second one done; its delegate is called once, also after a later `Tick` that
reports every job done. -/
theorem enumerator_polling_exactly_once_witness :
    (Run ([FCall.LoadAllSlotInfos true 11, FCall.LoadAllSlotInfos false 12] ++
        FCall.Tick none (fun K => decide (K.Address = 1)) ::
          [FCall.Tick none (fun _ => true)])).DelegateCalls.count
      { Address := 1, bSortByRecent := false, Delegate := 12 } = 1 :=
  (enumerator_polling_exactly_once USaveManager.New none (fun K => decide (K.Address = 1))
    [FCall.LoadAllSlotInfos true 11, FCall.LoadAllSlotInfos false 12]
    [FCall.Tick none (fun _ => true)]
    { Address := 1, bSortByRecent := false, Delegate := 12 }).2.2 (by decide) (by decide)

end SaveExtension
